import Mathlib

/-!
Verification of the davall read-only WebDAV server against its
natural-language specification.  Python strings are modelled as lists of
characters (`Str`), byte strings as lists of naturals (`Bytes`), and every
fallible operation returns `Except PyErr`.  Definitions are translated from
the repository sources (`server.py`, `backend.py`, `backend_xml.py`,
`backend_csv.py`, `backend_sqlite.py`, `backend_mailbox.py`,
`backend_json.py`).
-/

deriving instance DecidableEq for Except

abbrev Str := List Char

abbrev Bytes := List Nat

/-- Error kinds crossing the backend boundary, plus the Python runtime errors
that the repository code can raise.  `notFoundError` and `backendError` are
the two error classes of backend.py; `attributeError` models a Python
AttributeError (raised, e.g., when a string method is called on a list);
`parseError` models xml.etree.ElementTree.ParseError; `recursionError`
models the Python recursion limit. -/
inductive PyErr where
  | notFoundError (msg : Str)
  | backendError (msg : Str)
  | attributeError (msg : Str)
  | parseError
  | recursionError
deriving Repr, DecidableEq

/-- backend.py ResourceInfo: metadata about a resource. -/
structure ResourceInfo where
  is_dir : Bool
  size : Nat := 0
  content_type : Str := "application/octet-stream".data
deriving Repr, DecidableEq

/-- A Python value passed as the `path` argument of a backend call: the
repository mixes two conventions, string paths and segment-list paths, so the
argument is modelled as a sum. -/
inductive PyPath where
  | ofStr (s : Str)
  | ofList (segs : List Str)
deriving Repr, DecidableEq

/-! ## Python string primitives -/

/-- Python str.split(sep) for a one-character separator: split at every
occurrence, keeping empty pieces. -/
def pySplit (sep : Char) : Str → List Str
  | [] => [[]]
  | c :: rest =>
    let r := pySplit sep rest
    if c = sep then [] :: r
    else match r with
      | [] => [[c]]
      | piece :: more => (c :: piece) :: more

/-- Python sep.join(pieces). -/
def pyJoin (sep : Str) : List Str → Str
  | [] => []
  | [x] => x
  | x :: xs => x ++ sep ++ pyJoin sep xs

/-- Python str.startswith for a literal. -/
def pyStartswith (pre s : Str) : Bool := s.take pre.length = pre

/-- Python str.endswith for a literal. -/
def pyEndswith (suf s : Str) : Bool := s.drop (s.length - suf.length) = suf

/-- Python str.strip(ch): drop the character from both ends. -/
def pyStripChar (ch : Char) (s : Str) : Str :=
  ((s.dropWhile (· = ch)).reverse.dropWhile (· = ch)).reverse

/-- Characters for which Python str.isspace() holds, restricted to the code
points the repository can meet in practice (ASCII whitespace, the C1 control
separators, NEL and NBSP). -/
def pyIsSpace (c : Char) : Bool :=
  c.toNat = 32 ∨ c.toNat = 9 ∨ c.toNat = 10 ∨ c.toNat = 13 ∨ c.toNat = 11 ∨ c.toNat = 12 ∨
  (28 ≤ c.toNat ∧ c.toNat ≤ 31) ∨ c.toNat = 0x85 ∨ c.toNat = 0xA0

/-- Python str.strip() with no argument: strip whitespace from both ends. -/
def pyStripWs (s : Str) : Str :=
  ((s.dropWhile pyIsSpace).reverse.dropWhile pyIsSpace).reverse

/-- ASCII decimal digit test (Python str.isdigit on ASCII). -/
def isAsciiDigit (c : Char) : Bool := 48 ≤ c.toNat ∧ c.toNat ≤ 57

/-- Decimal digit character for a value below 10. -/
def digitChar10 (m : Nat) : Char := Char.ofNat ('0'.val.toNat + m)

/-- Fueled digit expansion; the fuel always suffices at the use below. -/
def natReprAux : Nat → Nat → Str
  | 0, _ => []
  | fuel + 1, n =>
    if n < 10 then [digitChar10 n] else natReprAux fuel (n / 10) ++ [digitChar10 (n % 10)]

/-- Decimal digits of a natural number (Python str(n) for n ≥ 0). -/
def natRepr (n : Nat) : Str := natReprAux (n + 1) n

/-- Python f-string zero padding: format i with width w, pad char 0. -/
def padZeros (w : Nat) (i : Nat) : Str :=
  let d := natRepr i
  List.replicate (w - d.length) '0' ++ d

/-! ## Lexicographic order on strings and the Python sorted builtin -/

/-- Code-point comparison of two strings, true when a ≤ b lexicographically.
Python compares str values exactly this way. -/
def strLe : Str → Str → Bool
  | [], _ => true
  | _ :: _, [] => false
  | a :: as, b :: bs =>
    if a.toNat < b.toNat then true
    else if b.toNat < a.toNat then false
    else strLe as bs

/-- The code-point order as a relation. -/
def strOrd : Str → Str → Prop := fun a b => strLe a b = true

instance : DecidableRel strOrd := fun a b => decEq (strLe a b) true

/-- Python sorted(): stable insertion sort under code-point order. -/
def pySorted (l : List Str) : List Str := List.insertionSort strOrd l

/-! ## backend.py `_normalize` -/

/-- Fixpoint of the backend.py loop `while "//" in path: path =
path.replace("//", "/")`: every run of slashes collapses to one. -/
def collapseSlashes : Str → Str
  | [] => []
  | [c] => [c]
  | c :: d :: rest =>
    if c = '/' ∧ d = '/' then collapseSlashes (d :: rest)
    else c :: collapseSlashes (d :: rest)

/-- backend.py `_normalize` on an actual string: ensure a leading slash,
collapse repeated slashes, drop a trailing slash except at the root. -/
def _normalize (path : Str) : Str :=
  let path := if pyStartswith "/".data path then path else '/' :: path
  let path := collapseSlashes path
  if path ≠ "/".data ∧ pyEndswith "/".data path then path.dropLast else path

/-- backend.py `_normalize` as invoked at runtime: the string-path backends
call it on whatever the front end passed.  On a segment list the attribute
lookup `path.startswith` raises AttributeError. -/
def _normalize_py (p : PyPath) : Except PyErr Str :=
  match p with
  | .ofStr s => .ok (_normalize s)
  | .ofList _ => .error (.attributeError "list object has no attribute startswith".data)

/-! ## urllib.parse quote and unquote -/

/-- The characters urllib.parse.quote never escapes (ALWAYS_SAFE): ASCII
letters, digits, underscore, dot, hyphen, tilde.  The repository calls quote
with safe set to the empty string, so no further character is safe. -/
def alwaysSafe (c : Char) : Bool :=
  (65 ≤ c.toNat ∧ c.toNat ≤ 90) ∨ (97 ≤ c.toNat ∧ c.toNat ≤ 122) ∨ isAsciiDigit c ∨
  c = '_' ∨ c = '.' ∨ c = '-' ∨ c = '~'

/-- Upper-case hexadecimal digit of a value below 16. -/
def hexDigit (n : Nat) : Char :=
  if n < 10 then Char.ofNat ('0'.val.toNat + n)
  else Char.ofNat ('A'.val.toNat + (n - 10))

/-- Value of a hexadecimal digit character, if it is one. -/
def hexVal (c : Char) : Option Nat :=
  if 48 ≤ c.toNat ∧ c.toNat ≤ 57 then some (c.toNat - 48)
  else if 65 ≤ c.toNat ∧ c.toNat ≤ 70 then some (c.toNat - 65 + 10)
  else if 97 ≤ c.toNat ∧ c.toNat ≤ 102 then some (c.toNat - 97 + 10)
  else none

/-- UTF-8 encoding of one character. -/
def utf8Char (c : Char) : Bytes :=
  let n := c.val.toNat
  if n < 0x80 then [n]
  else if n < 0x800 then [0xC0 + n / 64, 0x80 + n % 64]
  else if n < 0x10000 then [0xE0 + n / 4096, 0x80 + n / 64 % 64, 0x80 + n % 64]
  else [0xF0 + n / 262144, 0x80 + n / 4096 % 64, 0x80 + n / 64 % 64, 0x80 + n % 64]

/-- Python str.encode("utf-8"). -/
def utf8Encode (s : Str) : Bytes := s.flatMap utf8Char

/-- Percent-escape of one byte, as emitted by urllib.parse.quote. -/
def pctByte (b : Nat) : Str := ['%', hexDigit (b / 16), hexDigit (b % 16)]

/-- urllib.parse.quote(s, safe = the empty string): keep the always-safe
characters, percent-encode the UTF-8 bytes of everything else. -/
def pyQuote (s : Str) : Str :=
  s.flatMap fun c => if alwaysSafe c then [c] else (utf8Char c).flatMap pctByte

/-- urllib.parse.unquote: decode percent escapes.  Escaped bytes below 0x80
decode to the corresponding ASCII character; the inputs handled by the
theorems below never contain multi-byte percent sequences, which this model
decodes byte by byte. -/
def pyUnquote : Str → Str
  | [] => []
  | '%' :: a :: b :: rest =>
    match hexVal a, hexVal b with
    | some hi, some lo => Char.ofNat (hi * 16 + lo) :: pyUnquote rest
    | _, _ => '%' :: pyUnquote (a :: b :: rest)
  | c :: rest => c :: pyUnquote rest

/-! ## The Python int builtin on strings -/

/-- Valid unsigned body of a Python int literal: nonempty digits with single
underscores strictly between digits. -/
def pyValidDigits : Str → Bool
  | [] => false
  | c :: rest => isAsciiDigit c ∧ go rest
where
  go : Str → Bool
  | [] => true
  | c :: r =>
    if c = '_' then
      match r with
      | [] => false
      | d :: r' => isAsciiDigit d ∧ go r'
    else isAsciiDigit c ∧ go r

/-- Numeric value of a digit body, ignoring underscores. -/
def digitsValue (s : Str) : Nat :=
  s.foldl (fun acc c => if c = '_' then acc else acc * 10 + (c.toNat - 48)) 0

/-- Python int(s) for a str argument: strip surrounding whitespace, accept an
optional sign followed by digits with single grouping underscores. -/
def pyIntParse (s : Str) : Option Int :=
  match pyStripWs s with
  | [] => none
  | c :: r =>
    if c = '+' then (if pyValidDigits r then some (digitsValue r) else none)
    else if c = '-' then (if pyValidDigits r then some (-(digitsValue r : Int)) else none)
    else (if pyValidDigits (c :: r) then some (digitsValue (c :: r)) else none)

/-! ## UTF-8 decoding (Python bytes.decode("utf-8"), strict) -/

/-- Strict UTF-8 decoding: rejects stray continuation bytes, truncated and
overlong sequences, surrogates, and values beyond U+10FFFF, exactly the
inputs on which Python bytes.decode("utf-8") raises UnicodeDecodeError. -/
def utf8DecodeOpt : Bytes → Option Str
  | [] => some []
  | b :: rest =>
    if b < 0x80 then
      (utf8DecodeOpt rest).map (Char.ofNat b :: ·)
    else if b < 0xC2 then none
    else if b < 0xE0 then
      match rest with
      | b2 :: r =>
        if 0x80 ≤ b2 ∧ b2 < 0xC0 then
          (utf8DecodeOpt r).map (Char.ofNat ((b - 0xC0) * 64 + (b2 - 0x80)) :: ·)
        else none
      | _ => none
    else if b < 0xF0 then
      match rest with
      | b2 :: b3 :: r =>
        if 0x80 ≤ b2 ∧ b2 < 0xC0 ∧ 0x80 ≤ b3 ∧ b3 < 0xC0 then
          let n := (b - 0xE0) * 4096 + (b2 - 0x80) * 64 + (b3 - 0x80)
          if 0x800 ≤ n ∧ ¬(0xD800 ≤ n ∧ n ≤ 0xDFFF) then
            (utf8DecodeOpt r).map (Char.ofNat n :: ·)
          else none
        else none
      | _ => none
    else if b < 0xF5 then
      match rest with
      | b2 :: b3 :: b4 :: r =>
        if 0x80 ≤ b2 ∧ b2 < 0xC0 ∧ 0x80 ≤ b3 ∧ b3 < 0xC0 ∧ 0x80 ≤ b4 ∧ b4 < 0xC0 then
          let n := (b - 0xF0) * 262144 + (b2 - 0x80) * 4096 + (b3 - 0x80) * 64 + (b4 - 0x80)
          if 0x10000 ≤ n ∧ n ≤ 0x10FFFF then
            (utf8DecodeOpt r).map (Char.ofNat n :: ·)
          else none
        else none
      | _ => none
    else none

/-! ## backend.py MemoryBackend -/

/-- A node of the nested dict handed to MemoryBackend: nested dicts are
directories, bytes and str values are files. -/
inductive MemNode where
  | bytesVal (data : Bytes)
  | strVal (s : Str)
  | dict (entries : List (Str × MemNode))

/-- Python `part in node` / `node[part]` on a dict, modelled on the entry
list: first binding wins (the model only ever builds duplicate-free dicts). -/
def dictLookup (entries : List (Str × MemNode)) (key : Str) : Option MemNode :=
  (entries.find? (fun e => e.1 = key)).map Prod.snd

/-- MemoryBackend._resolve: normalize the path, then walk the tree; raises
NotFoundError when a segment is missing or an inner node is not a dict.
Receives whatever path value the caller passed. -/
def mem_resolve (tree : MemNode) (p : PyPath) : Except PyErr MemNode := do
  let path ← _normalize_py p
  if path = "/".data then
    .ok tree
  else
    let parts := pySplit '/' (pyStripChar '/' path)
    go tree parts path
where
  go (node : MemNode) (parts : List Str) (path : Str) : Except PyErr MemNode :=
    match parts with
    | [] => .ok node
    | part :: rest =>
      match node with
      | .dict entries =>
        match dictLookup entries part with
        | some child => go child rest path
        | none => .error (.notFoundError ("Not found: ".data ++ path))
      | _ => .error (.notFoundError ("Not found: ".data ++ path))

/-- MemoryBackend.info. -/
def mem_info (tree : MemNode) (p : PyPath) : Except PyErr ResourceInfo := do
  let node ← mem_resolve tree p
  match node with
  | .dict _ => .ok { is_dir := true }
  | .strVal s => .ok { is_dir := false, size := (utf8Encode s).length, content_type := "text/plain".data }
  | .bytesVal d => .ok { is_dir := false, size := d.length, content_type := "text/plain".data }

/-- MemoryBackend.list. -/
def mem_list (tree : MemNode) (p : PyPath) : Except PyErr (List Str) := do
  let node ← mem_resolve tree p
  match node with
  | .dict entries => .ok (pySorted (entries.map Prod.fst))
  | _ => .error (.notFoundError "Not a directory".data)

/-- MemoryBackend.get. -/
def mem_get (tree : MemNode) (p : PyPath) : Except PyErr Bytes := do
  let node ← mem_resolve tree p
  match node with
  | .dict _ => .error (.notFoundError "Not a file".data)
  | .strVal s => .ok (utf8Encode s)
  | .bytesVal d => .ok d

/-! ## server.py path handling -/

/-- server.py `_parse_path`: percent-decode the raw URL path and keep its
non-empty slash-separated components. -/
def _parse_path (raw : Str) : List Str :=
  (pySplit '/' (pyUnquote raw)).filter (· ≠ [])

/-- server.py `_to_href`: join the segments with slashes after quoting each
one, and append a slash for directories. -/
def _to_href (path : List Str) (is_dir : Bool) : Str :=
  let href := '/' :: pyJoin "/".data (path.map pyQuote)
  if is_dir ∧ ¬ pyEndswith "/".data href then href ++ "/".data else href

/-- The query keys produced by urllib.parse.parse_qs with keep_blank_values:
split the query on ampersands, drop empty pieces, take the part before the
first equals sign of each piece. -/
def queryKeys (query : Str) : List Str :=
  ((pySplit '&' query).filter (· ≠ [])).map (fun piece => piece.takeWhile (· ≠ '='))

/-- The two bulk dump formats recognized in the query string. -/
inductive DumpFormat where
  | json
  | zip
deriving Repr, DecidableEq

/-- WebDAVHandler._parse_request_path: split the URL at the first question
mark (urlparse), parse the path into segments and pick the dump format, with
json taking precedence over zip. -/
def _parse_request_path (rawUrl : Str) : List Str × Option DumpFormat :=
  let path := rawUrl.takeWhile (· ≠ '?')
  let query := (rawUrl.dropWhile (· ≠ '?')).drop 1
  let segs := _parse_path path
  let qs := queryKeys query
  if qs.contains "json".data then (segs, some .json)
  else if qs.contains "zip".data then (segs, some .zip)
  else (segs, none)

/-! ## The WebDAV front end: GET and HEAD -/

/-- The three-operation backend interface as the front end sees it: the front
end always passes the parsed segment list. -/
structure BackendIface where
  info : List Str → Except PyErr ResourceInfo
  list : List Str → Except PyErr (List Str)
  get : List Str → Except PyErr Bytes

/-- MemoryBackend bound to the front end: each call receives the segment
list.  MemoryBackend itself normalizes string paths, so the call goes through
`_normalize_py` on a list value. -/
def memIface (tree : MemNode) : BackendIface where
  info := fun segs => mem_info tree (.ofList segs)
  list := fun segs => mem_list tree (.ofList segs)
  get := fun segs => mem_get tree (.ofList segs)

/-- An HTTP response as assembled by WebDAVHandler._send: status, the
Content-Type header, and the body bytes.  The Content-Length header always
equals the body length; for HEAD the body bytes are merely not written to the
socket. -/
structure HttpResponse where
  status : Nat
  content_type : Str
  body : Bytes
deriving Repr, DecidableEq

/-- WebDAVHandler._try: NotFoundError becomes a 404 response, BackendError a
500 response with the error text, and any other exception propagates. -/
def _try {α : Type} (r : Except PyErr α) : Except PyErr (HttpResponse ⊕ α) :=
  match r with
  | .ok a => .ok (.inr a)
  | .error (.notFoundError _) =>
    .ok (.inl { status := 404, content_type := "text/plain".data, body := utf8Encode "Not Found".data })
  | .error (.backendError m) =>
    .ok (.inl { status := 500, content_type := "text/plain".data, body := utf8Encode m })
  | .error e => .error e

/-- The JSON values produced by WebDAVHandler._build_json_subtree. -/
inductive JsonVal where
  | null
  | strv (s : Str)
  | obj (fields : List (Str × JsonVal))

/-- String escaping of json.dumps: escape the quote, the backslash and
control characters. -/
def jsonEscape (s : Str) : Str :=
  s.flatMap fun c =>
    if c = '"' then ['\\', '"']
    else if c = '\\' then ['\\', '\\']
    else if c = '\n' then ['\\', 'n']
    else if c = '\t' then ['\\', 't']
    else if c = '\r' then ['\\', 'r']
    else if c.val < 32 then
      ['\\', 'u', '0', '0',
       Char.ofNat (if c.val.toNat / 16 < 10 then '0'.val.toNat + c.val.toNat / 16
                   else 'a'.val.toNat + c.val.toNat / 16 - 10),
       Char.ofNat (if c.val.toNat % 16 < 10 then '0'.val.toNat + c.val.toNat % 16
                   else 'a'.val.toNat + c.val.toNat % 16 - 10)]
    else [c]

mutual

/-- json.dumps(tree, indent 2, ensure_ascii False) at a given indentation. -/
def jsonDumpsAt (ind : Nat) : JsonVal → Str
  | .null => "null".data
  | .strv s => '"' :: (jsonEscape s ++ ['"'])
  | .obj [] => "{}".data
  | .obj fields =>
    '{' :: '\n' :: (pyJoin [',', '\n'] (jsonDumpsFields (ind + 2) fields) ++
      ('\n' :: (List.replicate ind ' ' ++ ['}'])))

/-- One line per field of an object being dumped. -/
def jsonDumpsFields (ind : Nat) : List (Str × JsonVal) → List Str
  | [] => []
  | (k, v) :: rest =>
    (List.replicate ind ' ' ++ ('"' :: (jsonEscape k ++ ['"', ':', ' '])) ++ jsonDumpsAt ind v)
      :: jsonDumpsFields ind rest

end

/-- json.dumps at top level. -/
def jsonDumps (v : JsonVal) : Str := jsonDumpsAt 0 v

/-- The ordered list of entries written into the ZIP archive, each a name and
its data.  The ZIP container format is kept abstract: the model serializes
the entry list injectively instead of emitting the binary container. -/
def zipSerialize (entries : List (Str × Bytes)) : Bytes :=
  entries.flatMap fun e => e.1.length :: e.2.length :: (utf8Encode e.1 ++ e.2)

/-- WebDAVHandler._build_json_subtree over an arbitrary backend interface,
with explicit fuel standing for the Python recursion limit (the default limit
is 1000; no theorem below comes near exhausting it). -/
def _build_json_subtree (B : BackendIface) : Nat → List Str → Except PyErr JsonVal
  | 0, _ => .error .recursionError
  | fuel + 1, path => do
    let info ← B.info path
    if ¬ info.is_dir then
      let data ← B.get path
      match utf8DecodeOpt data with
      | some s => .ok (.strv s)
      | none => .ok .null
    else do
      let children ← B.list path
      let fields ← children.mapM fun name => do
        let sub ← _build_json_subtree B fuel (path ++ [name])
        pure (name, sub)
      .ok (.obj fields)

/-- WebDAVHandler._zip_recurse over an arbitrary backend interface with
explicit fuel: collect the entries added under base, prefixed with rel. -/
def _zip_recurse (B : BackendIface) : Nat → List Str → List Str → Except PyErr (List (Str × Bytes))
  | 0, _, _ => .error .recursionError
  | fuel + 1, base, rel => do
    let children ← B.list base
    let groups ← children.mapM fun name => do
      let child := base ++ [name]
      let child_rel := rel ++ [name]
      let info ← B.info child
      if info.is_dir then
        _zip_recurse B fuel child child_rel
      else do
        let data ← B.get child
        pure [(pyJoin "/".data child_rel, data)]
    .ok groups.flatten

/-- WebDAVHandler._build_zip_subtree over an arbitrary backend interface. -/
def _build_zip_subtree (B : BackendIface) (fuel : Nat) (path : List Str) :
    Except PyErr (List (Str × Bytes)) := do
  let info ← B.info path
  if ¬ info.is_dir then
    let data ← B.get path
    .ok [(if path ≠ [] then path.getLast! else "data".data, data)]
  else
    _zip_recurse B fuel path []

/-- The HTML directory index built in WebDAVHandler._handle_get: title and
heading lines, a parent link when not at the root, one anchor per child whose
href gets a trailing slash when the child is a directory; a per-child
BackendError is absorbed by linking the child as a file. -/
def dirIndexBody (B : BackendIface) (path : List Str) (children : List Str) :
    Except PyErr Bytes := do
  let dir_name := if path ≠ [] then '/' :: pyJoin "/".data path else "/".data
  let headLine := "<html><head><title>".data ++ dir_name ++ "</title></head><body>".data
  let h1Line := "<h1>".data ++ dir_name ++ "</h1><ul>".data
  let parentLines : List Str := if path ≠ [] then ["<li><a href=\"../\">..</a></li>".data] else []
  let childLines ← children.mapM fun name => do
    let href ← match B.info (path ++ [name]) with
      | .ok child_info => .ok (pyQuote name ++ (if child_info.is_dir then "/".data else []))
      | .error (.notFoundError _) => .ok (pyQuote name)
      | .error (.backendError _) => .ok (pyQuote name)
      | .error e => .error e
    pure ("<li><a href=\"".data ++ href ++ "\">".data ++ name ++ "</a></li>".data)
  let lines := headLine :: h1Line :: (parentLines ++ childLines ++ ["</ul></body></html>".data])
  .ok (utf8Encode (pyJoin "\n".data lines))

/-- WebDAVHandler._handle_get, parameterized by the backend interface and by
the two dump builders (whose recursion is instantiated per backend).  HEAD
differs from GET only in not writing the body bytes, which the model keeps.
The result is an optional response: `_try` signals a handled backend error by
returning None after sending the 404/500 response, and the handler tests the
returned value against None before sending a 200.  In the json branch that
sentinel collides with a legitimate value, because `_build_json_subtree`
returns None (the JSON null) for a non-directory whose bytes are not valid
UTF-8; the `if tree is None: return` test then exits without sending anything,
modelled here as the `.ok none` outcome (no response on the wire).  In every
other branch the tested value (zip bytes, info, listing, file data) is never
None, so only the error sentinel can occur and a response is always sent. -/
def _handle_get (B : BackendIface)
    (buildJson : List Str → Except PyErr JsonVal)
    (buildZip : List Str → Except PyErr (List (Str × Bytes)))
    (rawUrl : Str) : Except PyErr (Option HttpResponse) := do
  let (path, fmt) := _parse_request_path rawUrl
  match fmt with
  | some .json =>
    match ← _try (buildJson path) with
    | .inl resp => .ok (some resp)
    | .inr tree =>
      match tree with
      | .null => .ok none
      | .strv s =>
        .ok (some
          { status := 200, content_type := "application/json; charset=utf-8".data,
            body := utf8Encode (jsonDumps (.strv s)) })
      | .obj fields =>
        .ok (some
          { status := 200, content_type := "application/json; charset=utf-8".data,
            body := utf8Encode (jsonDumps (.obj fields)) })
  | some .zip =>
    match ← _try (buildZip path) with
    | .inl resp => .ok (some resp)
    | .inr entries =>
      .ok (some
        { status := 200, content_type := "application/zip".data,
          body := zipSerialize entries })
  | none =>
    match ← _try (B.info path) with
    | .inl resp => .ok (some resp)
    | .inr info =>
      if info.is_dir then
        match ← _try (B.list path) with
        | .inl resp => .ok (some resp)
        | .inr children => do
          let body ← dirIndexBody B path children
          .ok (some
            { status := 200, content_type := "text/html; charset=utf-8".data,
              body := body })
      else
        match ← _try (B.get path) with
        | .inl resp => .ok (some resp)
        | .inr data =>
          .ok (some { status := 200, content_type := info.content_type, body := data })

/-- GET on the MemoryBackend-backed server: the dump builders recurse through
the same interface, with the Python recursion limit as fuel. -/
def handleGetMem (tree : MemNode) (rawUrl : Str) : Except PyErr (Option HttpResponse) :=
  _handle_get (memIface tree)
    (_build_json_subtree (memIface tree) 1000)
    (_build_zip_subtree (memIface tree) 1000)
    rawUrl

/-! ## A conforming backend modelled as a finite tree

For the front-end claims that quantify over backends, a backend is a finite
tree of directories and files in which any node may instead raise one of the
two declared backend error kinds when visited; section 4.B of the
specification states that a conforming backend never throws anything else. -/

/-- One of the two error kinds a conforming backend may raise. -/
inductive BackendExc where
  | notFound (msg : Str)
  | backend (msg : Str)
deriving Repr, DecidableEq

/-- The PyErr a backend exception surfaces as. -/
def BackendExc.toPyErr : BackendExc → PyErr
  | .notFound m => .notFoundError m
  | .backend m => .backendError m

/-- A backend namespace node: a file with data and content type, a directory
with named children in listing order, or a node on which every backend call
raises the given exception. -/
inductive BNode where
  | file (data : Bytes) (ct : Str)
  | dir (children : List (Str × BNode))
  | exc (e : BackendExc)

/-- Child lookup in a directory node. -/
def bLookup (children : List (Str × BNode)) (name : Str) : Option BNode :=
  (children.find? (fun c => c.1 = name)).map Prod.snd

/-- Resolution of a segment list against the tree: walking into a missing
name or through a file raises NotFound, walking through a raising node
raises its exception. -/
def resolveB (n : BNode) : List Str → Except PyErr BNode
  | [] => .ok n
  | seg :: rest =>
    match n with
    | .dir children =>
      match bLookup children seg with
      | some child => resolveB child rest
      | none => .error (.notFoundError "Not found".data)
    | .exc e => .error e.toPyErr
    | .file _ _ => .error (.notFoundError "Not found".data)

/-- info over the tree backend. -/
def treeInfo (root : BNode) (path : List Str) : Except PyErr ResourceInfo := do
  match ← resolveB root path with
  | .file data ct => .ok { is_dir := false, size := data.length, content_type := ct }
  | .dir _ => .ok { is_dir := true }
  | .exc e => .error e.toPyErr

/-- list over the tree backend: children in stored order. -/
def treeList (root : BNode) (path : List Str) : Except PyErr (List Str) := do
  match ← resolveB root path with
  | .dir children => .ok (children.map Prod.fst)
  | .file _ _ => .error (.notFoundError "Not a directory".data)
  | .exc e => .error e.toPyErr

/-- get over the tree backend. -/
def treeGet (root : BNode) (path : List Str) : Except PyErr Bytes := do
  match ← resolveB root path with
  | .file data _ => .ok data
  | .dir _ => .error (.notFoundError "Not a file".data)
  | .exc e => .error e.toPyErr

/-- The tree backend bound to the front-end interface. -/
def treeIface (root : BNode) : BackendIface where
  info := treeInfo root
  list := treeList root
  get := treeGet root

/-- Height of a backend tree node, bounding the recursion depth of any
traversal below it. -/
def heightB : BNode → Nat
  | .file _ _ => 0
  | .exc _ => 0
  | .dir children => 1 + childrenHeight children
where
  childrenHeight : List (Str × BNode) → Nat
  | [] => 0
  | c :: rest => max (heightB c.2) (childrenHeight rest)

/-- GET and HEAD on the tree-modelled backend, with the default Python
recursion limit as dump fuel. -/
def handleGetTree (root : BNode) (rawUrl : Str) : Except PyErr (Option HttpResponse) :=
  _handle_get (treeIface root)
    (_build_json_subtree (treeIface root) 1000)
    (_build_zip_subtree (treeIface root) 1000)
    rawUrl

/-! ## Specification-side views of a dump traversal

The following definitions restate, directly on the tree, what a complete
dump is and which exception a traversal hits first; the claims about the
dumps are proved by relating the code model above to them. -/

/-- Whether the subtree contains no raising node, i.e. the traversal
completes. -/
def cleanB : BNode → Bool
  | .exc _ => false
  | .file _ _ => true
  | .dir children => childrenClean children
where
  childrenClean : List (Str × BNode) → Bool
  | [] => true
  | c :: rest => cleanB c.2 ∧ childrenClean rest

/-- The first exception a depth-first traversal in listing order meets, if
any. -/
def firstExcB : BNode → Option BackendExc
  | .exc e => some e
  | .file _ _ => none
  | .dir children => childrenExc children
where
  childrenExc : List (Str × BNode) → Option BackendExc
  | [] => none
  | c :: rest =>
    match firstExcB c.2 with
    | some e => some e
    | none => childrenExc rest

/-- The complete JSON dump of a clean subtree, stated structurally. -/
def fullJsonB : BNode → JsonVal
  | .exc _ => .null
  | .file data _ =>
    match utf8DecodeOpt data with
    | some s => .strv s
    | none => .null
  | .dir children => .obj (fullJsonFields children)
where
  fullJsonFields : List (Str × BNode) → List (Str × JsonVal)
  | [] => []
  | c :: rest => (c.1, fullJsonB c.2) :: fullJsonFields rest

/-- The complete list of ZIP entries of a clean subtree: one entry per file,
named by the slash-joined path relative to the dump root. -/
def fullZipB (rel : List Str) : BNode → List (Str × Bytes)
  | .exc _ => []
  | .file data _ => [(pyJoin "/".data rel, data)]
  | .dir children => fullZipChildren rel children
where
  fullZipChildren (rel : List Str) : List (Str × BNode) → List (Str × Bytes)
  | [] => []
  | c :: rest => fullZipB (rel ++ [c.1]) c.2 ++ fullZipChildren rel rest

/-- The complete entry list a top-level ?zip dump of a node serializes: a
lone file is archived under its last path segment (or the name data at the
root), a directory under the relative paths of its descendants. -/
def fullZipTopB (path : List Str) : BNode → List (Str × Bytes)
  | .file data _ => [(if path ≠ [] then path.getLast! else "data".data, data)]
  | .dir children => fullZipB.fullZipChildren [] children
  | .exc _ => []

/-! ## PROPFIND -/

/-- A parsed XML element as seen through the ElementTree interface used by
`_parse_propfind_body`: a fully-qualified tag and the child elements. -/
inductive XNode where
  | node (tag : Str) (children : List XNode)

/-- Tag of an element. -/
def XNode.tag : XNode → Str
  | .node t _ => t

/-- Direct children of an element. -/
def XNode.children : XNode → List XNode
  | .node _ cs => cs

/-- ElementTree find on direct children by fully-qualified tag. -/
def xFind (n : XNode) (tag : Str) : Option XNode :=
  n.children.find? (fun c => c.tag = tag)

/-- The fully-qualified DAV tag for a local name: the namespace in braces
followed by the name. -/
def davTag (localName : Str) : Str := "\x7bDAV:\x7d".data ++ localName

/-- bytes.strip() on a body: drop ASCII whitespace bytes from both ends. -/
def bytesStrip (b : Bytes) : Bytes :=
  let ws : Nat → Bool := fun x => x = 32 ∨ x = 9 ∨ x = 10 ∨ x = 13 ∨ x = 11 ∨ x = 12
  ((b.dropWhile ws).reverse.dropWhile ws).reverse

/-- server.py `_parse_propfind_body`, with ET.fromstring supplied as the
library parsing function: None (allprop) for an empty or blank body, None
when the parsed body holds an allprop child or no prop element, otherwise
the local names of the children of the prop element.  A parse failure
propagates: the call is not guarded. -/
def _parse_propfind_body (fromstring : Bytes → Except PyErr XNode) (body : Bytes) :
    Except PyErr (Option (List Str)) := do
  if body = [] ∨ bytesStrip body = [] then
    .ok none
  else
    let root ← fromstring body
    if (xFind root (davTag "allprop".data)).isSome then
      .ok none
    else
      match xFind root (davTag "prop".data) with
      | none => .ok none
      | some prop_el =>
        .ok (some (prop_el.children.map fun child =>
          if pyStartswith "\x7bDAV:\x7d".data child.tag then
            child.tag.drop "\x7bDAV:\x7d".data.length
          else child.tag))

/-- The property names the server reports for allprop. -/
def SUPPORTED_PROPS : List Str :=
  ["displayname".data, "getcontentlength".data, "getcontenttype".data,
   "resourcetype".data, "getlastmodified".data]

/-- Python str.rstrip(ch). -/
def pyRstripChar (ch : Char) (s : Str) : Str :=
  (s.reverse.dropWhile (· = ch)).reverse

/-- One DAV:response element, reduced to its href and the rendered
properties. -/
structure RespElem where
  href : Str
  props : List (Str × Str)
deriving Repr, DecidableEq

/-- server.py `_build_response_element`: render each requested property that
the handler knows; size and content type only for files, a collection marker
for directories, a fixed epoch date, and a display name taken from the last
href segment (or the root marker). -/
def _build_response_element (href : Str) (info : ResourceInfo)
    (include_props : Option (List Str)) : RespElem :=
  let props_to_report := include_props.getD SUPPORTED_PROPS
  let displayName :=
    let base := pyRstripChar '/' href
    let nm := (base.reverse.takeWhile (· ≠ '/')).reverse
    pyUnquote (if nm = [] then "/".data else nm)
  let rendered := props_to_report.flatMap fun pname =>
    if pname = "displayname".data then [(pname, displayName)]
    else if pname = "getcontentlength".data then
      if ¬ info.is_dir then [(pname, natRepr info.size)] else []
    else if pname = "getcontenttype".data then
      if ¬ info.is_dir then [(pname, info.content_type)] else []
    else if pname = "resourcetype".data then
      [(pname, if info.is_dir then "collection".data else ([] : Str))]
    else if pname = "getlastmodified".data then
      [(pname, "Thu, 01 Jan 1970 00:00:00 GMT".data)]
    else []
  { href := href, props := rendered }

/-- server.py `_propfind_recurse` over an arbitrary backend interface with
the recursion limit as fuel: add a response for every descendant reached by
recursive listing, skipping children whose info raises a backend error and
stopping silently when a listing raises one. -/
def _propfind_recurse (B : BackendIface) :
    Nat → List Str → Option (List Str) → Except PyErr (List RespElem)
  | 0, _, _ => .error .recursionError
  | fuel + 1, dir_path, requested_props => do
    let children ← match B.list dir_path with
      | .ok cs => pure cs
      | .error (.notFoundError _) => pure []
      | .error (.backendError _) => pure []
      | .error e => .error e
    let groups ← children.mapM fun name => do
      let child_path := dir_path ++ [name]
      match B.info child_path with
      | .error (.notFoundError _) => pure []
      | .error (.backendError _) => pure []
      | .error e => .error e
      | .ok child_info => do
        let elem := _build_response_element (_to_href child_path child_info.is_dir)
          child_info requested_props
        if child_info.is_dir then
          let deeper ← _propfind_recurse B fuel child_path requested_props
          pure (elem :: deeper)
        else
          pure [elem]
    .ok groups.flatten

/-- Outcome of a PROPFIND request: either an error response produced by
`_try`, or a 207 multistatus with its response elements (the XML
serialization of the elements is kept abstract). -/
inductive PFResult where
  | errResp (resp : HttpResponse)
  | multistatus (elems : List RespElem)
deriving Repr, DecidableEq

/-- server.py do_PROPFIND: parse the URL and the Depth header (default
value the string 1), read the body and parse it for requested properties
(a parse failure propagates), answer 404/500 when the target cannot be
resolved, and assemble responses for the target, plus its children when it
is a directory and depth is not the string 0, descending further only at
depth infinity. -/
def do_PROPFIND (B : BackendIface) (fromstring : Bytes → Except PyErr XNode)
    (depthHeader : Option Str) (body : Bytes) (rawUrl : Str) :
    Except PyErr PFResult := do
  let (path, _) := _parse_request_path rawUrl
  let depth := depthHeader.getD "1".data
  let requested_props ← _parse_propfind_body fromstring body
  match ← _try (B.info path) with
  | .inl resp => .ok (.errResp resp)
  | .inr info => do
    let first := _build_response_element (_to_href path info.is_dir) info requested_props
    if info.is_dir ∧ depth ≠ "0".data then
      match ← _try (B.list path) with
      | .inl resp => .ok (.errResp resp)
      | .inr children => do
        let groups ← children.mapM fun name => do
          let child_path := path ++ [name]
          match B.info child_path with
          | .error (.notFoundError _) => pure []
          | .error (.backendError _) => pure []
          | .error e => .error e
          | .ok child_info => do
            let elem := _build_response_element (_to_href child_path child_info.is_dir)
              child_info requested_props
            if depth = "infinity".data ∧ child_info.is_dir then
              let deeper ← _propfind_recurse B 1000 child_path requested_props
              pure (elem :: deeper)
            else
              pure [elem]
        .ok (.multistatus (first :: groups.flatten))
    else
      .ok (.multistatus [first])

/-! ## backend_xml.py -/

/-- An ElementTree element as parsed from the XML file: qualified tag, text
(None when no text precedes the first child), attributes, child elements. -/
inductive XElem where
  | elem (tag : Str) (text : Option Str) (attrib : List (Str × Str)) (children : List XElem)

/-- Qualified tag of an element. -/
def XElem.tagOf : XElem → Str
  | .elem t _ _ _ => t

/-- backend_xml.py `_strip_ns`: drop a leading namespace in braces. -/
def _strip_ns (tag : Str) : Str :=
  if tag.contains '}' then (tag.dropWhile (· ≠ '}')).drop 1 else tag

/-- The intermediate `_XmlNode`: stripped tag, stripped text or None,
attributes or None, and the children dict in insertion order. -/
inductive XmlNode where
  | mk (tag : Str) (text : Option Str) (attribs : Option (List (Str × Str)))
       (children : List (Str × XmlNode))

/-- Text field of a node. -/
def XmlNode.text : XmlNode → Option Str
  | .mk _ t _ _ => t

/-- Attribute dict of a node. -/
def XmlNode.attribs : XmlNode → Option (List (Str × Str))
  | .mk _ _ a _ => a

/-- Children dict of a node. -/
def XmlNode.children : XmlNode → List (Str × XmlNode)
  | .mk _ _ _ cs => cs

/-- Lookup with default zero in a counting dict. -/
def lookupNat (l : List (Str × Nat)) (k : Str) : Nat :=
  ((l.find? (fun p => p.1 = k)).map Prod.snd).getD 0

/-- Increment a key in a counting dict. -/
def bumpNat (l : List (Str × Nat)) (k : Str) : List (Str × Nat) :=
  if (l.find? (fun p => p.1 = k)).isSome then
    l.map (fun p => if p.1 = k then (p.1, p.2 + 1) else p)
  else l ++ [(k, 1)]

/-- Python dict assignment `d[k] = v`: replace in place or append. -/
def dictPut {α : Type} (l : List (Str × α)) (k : Str) (v : α) : List (Str × α) :=
  if (l.find? (fun p => p.1 = k)).isSome then
    l.map (fun p => if p.1 = k then (p.1, v) else p)
  else l ++ [(k, v)]

/-- First naming pass of `_XmlNode.__init__`: count each stripped child
tag. -/
def countTags (els : List XElem) : List (Str × Nat) :=
  els.foldl (fun acc el => bumpNat acc (_strip_ns el.tagOf)) []

mutual

/-- backend_xml.py `_XmlNode.__init__`: strip the tag namespace, strip the
text (empty becomes None), keep attributes only when present, and name the
children, appending `_0`, `_1`, ... to tags that occur more than once. -/
def xmlNodeOf : XElem → XmlNode
  | .elem tag text attrib children =>
    .mk (_strip_ns tag)
      (match pyStripWs (text.getD []) with
       | [] => none
       | t => some t)
      (if attrib ≠ [] then some attrib else none)
      (xmlChildAssign children (countTags children) [] [])

/-- Second naming pass: assign each child its name and build the children
dict. -/
def xmlChildAssign : List XElem → List (Str × Nat) → List (Str × Nat) →
    List (Str × XmlNode) → List (Str × XmlNode)
  | [], _, _, acc => acc
  | el :: rest, counts, used, acc =>
    let base := _strip_ns el.tagOf
    if lookupNat counts base > 1 then
      let idx := lookupNat used base
      xmlChildAssign rest counts (bumpNat used base)
        (dictPut acc (base ++ '_' :: natRepr idx) (xmlNodeOf el))
    else
      xmlChildAssign rest counts used (dictPut acc base (xmlNodeOf el))

end

/-- backend_xml.py XmlBackend.__init__ applied to an already parsed
document: the backend root is the node of the document element itself. -/
def xmlInit (docElement : XElem) : XmlNode := xmlNodeOf docElement

/-- backend_xml.py XmlBackend._resolve: normalize, walk the children dicts,
refusing to traverse the reserved names. -/
def xml_resolve (root : XmlNode) (path : Str) : Except PyErr XmlNode :=
  let path := _normalize path
  if path = "/".data then .ok root
  else go root (pySplit '/' (pyStripChar '/' path)) path
where
  go (node : XmlNode) (parts : List Str) (path : Str) : Except PyErr XmlNode :=
    match parts with
    | [] => .ok node
    | part :: rest =>
      if part = "_text".data ∨ part = "_attribs".data then
        .error (.notFoundError "Special entries are not traversable as nodes".data)
      else
        match (node.children.find? (fun c => c.1 = part)).map Prod.snd with
        | some child => go child rest path
        | none => .error (.notFoundError ("Not found: ".data ++ path))

/-- Parent path string rebuilt by the backend: slash-joined leading parts, or
the root. -/
def xmlParentPath (parts : List Str) : Str :=
  if parts.length > 1 then '/' :: pyJoin "/".data parts.dropLast else "/".data

/-- backend_xml.py XmlBackend.info. -/
def xml_info (root : XmlNode) (path0 : Str) : Except PyErr ResourceInfo :=
  let path := _normalize path0
  let parts := pySplit '/' (pyStripChar '/' path)
  if parts.getLastD [] = "_text".data then do
    let parent ← xml_resolve root (xmlParentPath parts)
    match parent.text with
    | none => .error (.notFoundError ("Not found: ".data ++ path))
    | some t =>
      .ok { is_dir := false, size := (utf8Encode t).length, content_type := "text/plain".data }
  else if parts.getLastD [] = "_attribs".data then do
    let parent ← xml_resolve root (xmlParentPath parts)
    match parent.attribs with
    | none => .error (.notFoundError ("Not found: ".data ++ path))
    | some _ => .ok { is_dir := true }
  else if parts.length ≥ 2 ∧ (parts.dropLast).getLastD [] = "_attribs".data then do
    let grandparent ← xml_resolve root
      (if parts.length > 2 then '/' :: pyJoin "/".data (parts.dropLast.dropLast) else "/".data)
    let attr_name := parts.getLastD []
    match grandparent.attribs with
    | none => .error (.notFoundError ("Not found: ".data ++ path))
    | some attrs =>
      match (attrs.find? (fun a => a.1 = attr_name)).map Prod.snd with
      | none => .error (.notFoundError ("Not found: ".data ++ path))
      | some v =>
        .ok { is_dir := false, size := (utf8Encode v).length, content_type := "text/plain".data }
  else do
    let _ ← xml_resolve root path
    .ok { is_dir := true }

/-- backend_xml.py XmlBackend.list: attribute names for an `_attribs`
directory; otherwise the optional `_text` entry, then the optional `_attribs`
entry, then the sorted children names. -/
def xml_list (root : XmlNode) (path0 : Str) : Except PyErr (List Str) :=
  let path := _normalize path0
  let parts := pySplit '/' (pyStripChar '/' path)
  if parts.getLastD [] = "_attribs".data then do
    let parent ← xml_resolve root (xmlParentPath parts)
    match parent.attribs with
    | none => .error (.notFoundError ("Not a directory: ".data ++ path))
    | some attrs => .ok (pySorted (attrs.map Prod.fst))
  else do
    let node ← xml_resolve root path
    let entries := (if node.text.isSome then ["_text".data] else []) ++
      (if node.attribs.isSome then ["_attribs".data] else [])
    .ok (entries ++ pySorted (node.children.map Prod.fst))

/-- backend_xml.py XmlBackend.get: only `_text` and attribute files are
readable. -/
def xml_get (root : XmlNode) (path0 : Str) : Except PyErr Bytes :=
  let path := _normalize path0
  let parts := pySplit '/' (pyStripChar '/' path)
  if parts.getLastD [] = "_text".data then do
    let parent ← xml_resolve root (xmlParentPath parts)
    match parent.text with
    | none => .error (.notFoundError ("Not found: ".data ++ path))
    | some t => .ok (utf8Encode t)
  else if parts.length ≥ 2 ∧ (parts.dropLast).getLastD [] = "_attribs".data then do
    let grandparent ← xml_resolve root
      (if parts.length > 2 then '/' :: pyJoin "/".data (parts.dropLast.dropLast) else "/".data)
    let attr_name := parts.getLastD []
    match grandparent.attribs with
    | none => .error (.notFoundError ("Not found: ".data ++ path))
    | some attrs =>
      match (attrs.find? (fun a => a.1 = attr_name)).map Prod.snd with
      | none => .error (.notFoundError ("Not found: ".data ++ path))
      | some v => .ok (utf8Encode v)
  else .error (.notFoundError ("Not a file: ".data ++ path))

/-! ## backend_csv.py -/

/-- The state CsvBackend builds at construction: the header list and the
DictReader rows (a missing cell is None). -/
structure CsvState where
  headers : List Str
  rows : List (List (Str × Option Str))

/-- `_headers_bytes`. -/
def csvHeadersBytes (st : CsvState) : Bytes := utf8Encode (pyJoin "\n".data st.headers)

/-- `self._width = max(4, len(str(len(self._rows))))`. -/
def csvWidth (st : CsvState) : Nat := max 4 (natRepr st.rows.length).length

/-- CsvBackend._row_dirname. -/
def csv_row_dirname (st : CsvState) (index : Nat) : Str :=
  "row_".data ++ padZeros (csvWidth st) index

/-- CsvBackend._parse_row_name and SqliteBackend._parse_row_name: take the
part after the `row_` marker and hand it to int(). -/
def _parse_row_name (name : Str) : Option Int :=
  if pyStartswith "row_".data name then pyIntParse (name.drop 4) else none

/-- `self._rows[row_idx].get(column) or ""`. -/
def csvCell (row : List (Str × Option Str)) (column : Str) : Str :=
  match (row.find? (fun c => c.1 = column)).map Prod.snd with
  | some (some v) => v
  | _ => []

/-- CsvBackend.info. -/
def csv_info (st : CsvState) (path0 : Str) : Except PyErr ResourceInfo :=
  let path := _normalize path0
  if path = "/".data then .ok { is_dir := true }
  else
    let parts := pySplit '/' (pyStripChar '/' path)
    match parts with
    | [name] =>
      if name = "_headers.txt".data then
        .ok { is_dir := false, size := (csvHeadersBytes st).length, content_type := "text/plain".data }
      else
        match _parse_row_name name with
        | some k =>
          if 0 ≤ k ∧ k < (st.rows.length : Int) then .ok { is_dir := true }
          else .error (.notFoundError ("Not found: ".data ++ path))
        | none => .error (.notFoundError ("Not found: ".data ++ path))
    | [row_name, column] =>
      match _parse_row_name row_name with
      | some k =>
        if 0 ≤ k ∧ k < (st.rows.length : Int) then
          if st.headers.contains column then
            let value := utf8Encode (csvCell (st.rows.getD k.toNat []) column)
            .ok { is_dir := false, size := value.length, content_type := "text/plain".data }
          else .error (.notFoundError ("Not found: ".data ++ path))
        else .error (.notFoundError ("Not found: ".data ++ path))
      | none => .error (.notFoundError ("Not found: ".data ++ path))
    | _ => .error (.notFoundError ("Not found: ".data ++ path))

/-- CsvBackend.list. -/
def csv_list (st : CsvState) (path0 : Str) : Except PyErr (List Str) :=
  let path := _normalize path0
  if path = "/".data then
    .ok ("_headers.txt".data :: (List.range st.rows.length).map (csv_row_dirname st))
  else
    let parts := pySplit '/' (pyStripChar '/' path)
    match parts with
    | [name] =>
      match _parse_row_name name with
      | some k =>
        if 0 ≤ k ∧ k < (st.rows.length : Int) then .ok st.headers
        else .error (.notFoundError ("Not a directory: ".data ++ path))
      | none => .error (.notFoundError ("Not a directory: ".data ++ path))
    | _ => .error (.notFoundError ("Not a directory: ".data ++ path))

/-- CsvBackend.get. -/
def csv_get (st : CsvState) (path0 : Str) : Except PyErr Bytes :=
  let path := _normalize path0
  let parts := pySplit '/' (pyStripChar '/' path)
  match parts with
  | [name] =>
    if name = "_headers.txt".data then .ok (csvHeadersBytes st)
    else .error (.notFoundError ("Not found: ".data ++ path))
  | [row_name, column] =>
    match _parse_row_name row_name with
    | some k =>
      if 0 ≤ k ∧ k < (st.rows.length : Int) then
        if st.headers.contains column then
          .ok (utf8Encode (csvCell (st.rows.getD k.toNat []) column))
        else .error (.notFoundError ("Not found: ".data ++ path))
      else .error (.notFoundError ("Not found: ".data ++ path))
    | none => .error (.notFoundError ("Not found: ".data ++ path))
  | _ => .error (.notFoundError ("Not found: ".data ++ path))

/-! ## backend_sqlite.py -/

/-- One cached table: its CREATE statement, its column names in PRAGMA
order, and its rows in the natural order used by LIMIT/OFFSET; a cell is the
text coercion of the value, or None for SQL NULL. -/
structure SqTable where
  schema : Str
  columns : List Str
  rows : List (List (Str × Option Str))

/-- The backend state: the cached table dict. -/
structure SqliteState where
  tables : List (Str × SqTable)

/-- Cached `self._tables` membership. -/
def sqHasTable (st : SqliteState) (name : Str) : Bool :=
  (st.tables.map Prod.fst).contains name

/-- Table record lookup. -/
def sqTable (st : SqliteState) (name : Str) : Option SqTable :=
  (st.tables.find? (fun t => t.1 = name)).map Prod.snd

/-- SqliteBackend._get_schema: the CREATE statement plus a semicolon and
newline. -/
def sq_get_schema (t : SqTable) : Str := t.schema ++ ";\n".data

/-- SqliteBackend._get_cell: NotFound for an unknown column or an
out-of-range offset, empty bytes for SQL NULL, the text coercion
otherwise. -/
def sq_get_cell (t : SqTable) (row_index : Nat) (column : Str) : Except PyErr Bytes :=
  if ¬ t.columns.contains column then
    .error (.notFoundError ("Column not found: ".data ++ column))
  else
    match t.rows.get? row_index with
    | none => .error (.notFoundError "Row not found".data)
    | some row =>
      match (row.find? (fun c => c.1 = column)).map Prod.snd with
      | some (some v) => .ok (utf8Encode v)
      | _ => .ok []

/-- SqliteBackend.info. -/
def sq_info (st : SqliteState) (path0 : Str) : Except PyErr ResourceInfo :=
  let path := _normalize path0
  if path = "/".data then .ok { is_dir := true }
  else
    let parts := pySplit '/' (pyStripChar '/' path)
    match parts with
    | [name] =>
      if sqHasTable st name then .ok { is_dir := true }
      else .error (.notFoundError ("Not found: ".data ++ path))
    | [table, name] =>
      match sqTable st table with
      | none => .error (.notFoundError ("Not found: ".data ++ path))
      | some t =>
        if name = "_schema.sql".data then
          .ok { is_dir := false, size := (utf8Encode (sq_get_schema t)).length,
                content_type := "text/plain".data }
        else
          -- the source compares row_idx < count without a lower bound, so a
          -- negative index also passes
          match _parse_row_name name with
          | some k =>
            if k < (t.rows.length : Int) then .ok { is_dir := true }
            else .error (.notFoundError ("Not found: ".data ++ path))
          | none => .error (.notFoundError ("Not found: ".data ++ path))
    | [table, row_name, column] =>
      match sqTable st table with
      | none => .error (.notFoundError ("Not found: ".data ++ path))
      | some t =>
        match _parse_row_name row_name with
        | none => .error (.notFoundError ("Not found: ".data ++ path))
        | some k => do
          -- SQLite evaluates a negative OFFSET as zero
          let data ← sq_get_cell t (if 0 ≤ k then k.toNat else 0) column
          .ok { is_dir := false, size := data.length, content_type := "text/plain".data }
    | _ => .error (.notFoundError ("Not found: ".data ++ path))

/-- SqliteBackend.list. -/
def sq_list (st : SqliteState) (path0 : Str) : Except PyErr (List Str) :=
  let path := _normalize path0
  if path = "/".data then .ok (pySorted (st.tables.map Prod.fst))
  else
    let parts := pySplit '/' (pyStripChar '/' path)
    match parts with
    | [table] =>
      match sqTable st table with
      | none => .error (.notFoundError ("Not a directory: ".data ++ path))
      | some t =>
        .ok ("_schema.sql".data :: (List.range t.rows.length).map
          (fun i => "row_".data ++ natRepr i))
    | [table, row_name] =>
      match sqTable st table with
      | none => .error (.notFoundError ("Not a directory: ".data ++ path))
      | some t =>
        match _parse_row_name row_name with
        | none => .error (.notFoundError ("Not a directory: ".data ++ path))
        | some k =>
          -- the source compares row_idx >= count without a lower bound
          if k ≥ (t.rows.length : Int) then
            .error (.notFoundError ("Not a directory: ".data ++ path))
          else .ok t.columns
    | _ => .error (.notFoundError ("Not a directory: ".data ++ path))

/-- SqliteBackend.get. -/
def sq_get (st : SqliteState) (path0 : Str) : Except PyErr Bytes :=
  let path := _normalize path0
  let parts := pySplit '/' (pyStripChar '/' path)
  match parts with
  | [table, name] =>
    match sqTable st table with
    | none => .error (.notFoundError ("Not found: ".data ++ path))
    | some t =>
      if name = "_schema.sql".data then .ok (utf8Encode (sq_get_schema t))
      else .error (.notFoundError ("Not found: ".data ++ path))
  | [table, row_name, column] =>
    match sqTable st table with
    | none => .error (.notFoundError ("Not found: ".data ++ path))
    | some t =>
      match _parse_row_name row_name with
      | none => .error (.notFoundError ("Not found: ".data ++ path))
      | some k =>
        -- SQLite evaluates a negative OFFSET as zero
        sq_get_cell t (if 0 ≤ k then k.toNat else 0) column
  | _ => .error (.notFoundError ("Not found: ".data ++ path))

/-! ## backend_mailbox.py -/

/-- Word characters of the re module pattern backslash-w on str input: ASCII
letters, digits and underscore, plus Unicode alphanumerics, modelled here for
the Latin-1 supplement and the Latin Extended-A and Extended-B ranges (the
multiplication and division signs are not letters). -/
def pyIsWord (c : Char) : Bool :=
  (65 ≤ c.toNat ∧ c.toNat ≤ 90) ∨ (97 ≤ c.toNat ∧ c.toNat ≤ 122) ∨ isAsciiDigit c ∨ c = '_' ∨
  c.toNat = 0xAA ∨ c.toNat = 0xB5 ∨ c.toNat = 0xBA ∨
  (0xC0 ≤ c.toNat ∧ c.toNat ≤ 0x24F ∧ c.toNat ≠ 0xD7 ∧ c.toNat ≠ 0xF7)

mutual

/-- re.sub of one-or-more whitespace with an underscore: each maximal
whitespace run becomes one underscore. -/
def collapseWs : Str → Str
  | [] => []
  | c :: rest =>
    if pyIsSpace c then '_' :: collapseWsSkip rest
    else c :: collapseWs rest

/-- Consume the rest of a whitespace run already replaced by an
underscore. -/
def collapseWsSkip : Str → Str
  | [] => []
  | c :: rest =>
    if pyIsSpace c then collapseWsSkip rest
    else c :: collapseWs rest

end

/-- backend_mailbox.py `_safe_filename`: remove every character that is not
a word character, whitespace, hyphen or dot; strip; collapse whitespace runs
to underscores; truncate to 60; fall back to no_subject when empty. -/
def _safe_filename (s : Str) : Str :=
  let s := s.filter (fun c => pyIsWord c ∨ pyIsSpace c ∨ c = '-' ∨ c = '.')
  let s := collapseWs (pyStripWs s)
  if s ≠ [] then s.take 60 else "no_subject".data

/-- MailboxBackend.__init__ filename synthesis: for message i the name is
the zero-padded index, an underscore, the sanitized subject (the literal
no_subject when the header is absent), and the eml suffix; the pad width is
the larger of 4 and the digit count of the message count. -/
def mboxNames (subjects : List (Option Str)) : List Str :=
  let width := max 4 (natRepr subjects.length).length
  (subjects.enum.map fun si =>
    padZeros width si.1 ++ '_' :: _safe_filename (si.2.getD "no_subject".data) ++ ".eml".data)

/-- MailboxBackend.list at the root: the insertion-order name list. -/
def mbox_list_root (subjects : List (Option Str)) : List Str := mboxNames subjects

/-! ## backend_json.py -/

/-- A parsed JSON document. -/
inductive JNode where
  | dict (entries : List (Str × JNode))
  | arr (items : List JNode)
  | jnull
  | jbool (b : Bool)
  | jstr (s : Str)
  | jnum (text : Str)

/-- JsonBackend._resolve with segment-list paths: dict segments match keys,
list segments must parse as in-range indices, scalars end traversal. -/
def json_resolve (node : JNode) : List Str → Except PyErr JNode
  | [] => .ok node
  | part :: rest =>
    match node with
    | .dict entries =>
      match (entries.find? (fun e => e.1 = part)).map Prod.snd with
      | some child => json_resolve child rest
      | none => .error (.notFoundError "Not found".data)
    | .arr items =>
      match pyIntParse part with
      | none => .error (.notFoundError "Not found".data)
      | some index =>
        if index < 0 ∨ index ≥ (items.length : Int) then
          .error (.notFoundError "Not found".data)
        else
          match items.get? index.toNat with
          | some child => json_resolve child rest
          | none => .error (.notFoundError "Not found".data)
    | _ => .error (.notFoundError "Not found".data)

/-! ## Specification-side views for PROPFIND depth handling -/

/-- Whether a backend tree node is a directory. -/
def isDirB : BNode → Bool
  | .dir _ => true
  | _ => false

/-- The ResourceInfo a tree node reports (meaningless for raising nodes,
which never report successfully). -/
def infoOfB : BNode → ResourceInfo
  | .file data ct => { is_dir := false, size := data.length, content_type := ct }
  | _ => { is_dir := true }

/-- The responses PROPFIND produces for the immediate children of a
directory: one element per child in listing order, skipping children whose
info raises. -/
def pfLevel1 (props : Option (List Str)) (path : List Str) :
    List (Str × BNode) → List RespElem
  | [] => []
  | (name, child) :: rest =>
    match child with
    | .exc _ => pfLevel1 props path rest
    | .file data ct =>
      _build_response_element (_to_href (path ++ [name]) false)
        { is_dir := false, size := data.length, content_type := ct } props
        :: pfLevel1 props path rest
    | .dir _ =>
      _build_response_element (_to_href (path ++ [name]) true) { is_dir := true } props
        :: pfLevel1 props path rest

/-- The responses PROPFIND at depth infinity produces below a directory: one
element per descendant in depth-first listing order, skipping raising
nodes. -/
def pfDeep (props : Option (List Str)) (path : List Str) :
    List (Str × BNode) → List RespElem
  | [] => []
  | (name, child) :: rest =>
    match child with
    | .exc _ => pfDeep props path rest
    | .file data ct =>
      _build_response_element (_to_href (path ++ [name]) false)
        { is_dir := false, size := data.length, content_type := ct } props
        :: pfDeep props path rest
    | .dir cs =>
      (_build_response_element (_to_href (path ++ [name]) true) { is_dir := true } props
        :: pfDeep props (path ++ [name]) cs) ++ pfDeep props path rest

/-- Well-formedness of a backend tree: every directory has duplicate-free
child names. -/
def wfB : BNode → Bool
  | .file _ _ => true
  | .exc _ => true
  | .dir children => decide ((children.map Prod.fst).Nodup) ∧ wfChildren children
where
  wfChildren : List (Str × BNode) → Bool
  | [] => true
  | c :: rest => wfB c.2 ∧ wfChildren rest

/-! ## The claims: spec-side recipes named by the claims -/

/-- The ASCII word class the C4 claim names: A-Za-z0-9_. -/
def claimWordChar (c : Char) : Bool :=
  (65 ≤ c.toNat ∧ c.toNat ≤ 90) ∨ (97 ≤ c.toNat ∧ c.toNat ≤ 122) ∨ isAsciiDigit c ∨ c = '_'

/-- The filename sanitizer exactly as the C4 claim words it: remove every
character outside the ASCII class together with whitespace, dot and hyphen,
collapse each whitespace run to one underscore, truncate to 60, substitute
no_subject if empty. -/
def claim_safe_filename (s : Str) : Str :=
  let kept := s.filter (fun c => claimWordChar c ∨ pyIsSpace c ∨ c = '-' ∨ c = '.')
  let collapsed := (collapseWs kept).take 60
  if collapsed = [] then "no_subject".data else collapsed

/-- The filename list predicted by the C4 claim. -/
def claimMboxNames (subjects : List (Option Str)) : List Str :=
  let width := max 4 (natRepr subjects.length).length
  (subjects.enum.map fun si =>
    padZeros width si.1 ++ '_' :: claim_safe_filename (si.2.getD "no_subject".data) ++ ".eml".data)

/-- The sanitizer of the amended C4 claim: remove every character that is
not a Unicode word character, whitespace, dot or hyphen; strip leading and
trailing whitespace; collapse each inner whitespace run to one underscore;
truncate to 60; substitute no_subject if empty. -/
def amended_safe_filename (s : Str) : Str :=
  let kept := s.filter (fun c => pyIsWord c ∨ pyIsSpace c ∨ c = '-' ∨ c = '.')
  let collapsed := (collapseWs (pyStripWs kept)).take 60
  if collapsed = [] then "no_subject".data else collapsed

/-- The filename list predicted by the amended C4 claim. -/
def amendedMboxNames (subjects : List (Option Str)) : List Str :=
  let width := max 4 (natRepr subjects.length).length
  (subjects.enum.map fun si =>
    padZeros width si.1 ++ '_' :: amended_safe_filename (si.2.getD "no_subject".data) ++ ".eml".data)

/-- No two adjacent slashes. -/
def noAdjSlash : Str → Bool
  | [] => true
  | [_] => true
  | c :: d :: rest => ¬ (c = '/' ∧ d = '/') ∧ noAdjSlash (d :: rest)

/-- Well-formedness of a memory tree: every dict has duplicate-free keys
(Python dict literals cannot hold duplicates). -/
def memWF : MemNode → Bool
  | .bytesVal _ => true
  | .strVal _ => true
  | .dict entries => decide ((entries.map Prod.fst).Nodup) ∧ memChildrenWF entries
where
  memChildrenWF : List (Str × MemNode) → Bool
  | [] => true
  | e :: rest => memWF e.2 ∧ memChildrenWF rest

/-- The canonical path strings of the C7 claim: a leading slash, no
consecutive separators, no trailing slash except for the root itself (which
also forces every segment to be non-empty). -/
def isCanonicalPath (s : Str) : Bool :=
  pyStartswith "/".data s && noAdjSlash s &&
    (decide (s = "/".data) || ! pyEndswith "/".data s)

/-! ## Concrete instances -/

/-- The fixture the C1 claim names:
MemoryBackend with hello.txt and docs/guide.txt. -/
def memSample : MemNode := .dict [
  ("hello.txt".data, .strVal "Hello, world!".data),
  ("docs".data, .dict [("guide.txt".data, .strVal "A guide".data)])]

/-- The document of the C3 claim, r with two a children. -/
def xmlDocRA : XElem := .elem "r".data none [] [
  .elem "a".data (some "x".data) [] [],
  .elem "a".data (some "y".data) [] []]

/-- An element with both text content and an attribute, the C5 instance. -/
def xmlDocTA : XElem := .elem "r".data (some "t".data) [("a".data, "1".data)] []

/-- A clean tree backend fixture. -/
def treeSample : BNode := .dir [
  ("hello.txt".data, .file (utf8Encode "Hello, world!".data) "text/plain".data),
  ("docs".data, .dir [("guide.txt".data, .file (utf8Encode "A guide".data) "text/plain".data)])]

/-- A tree backend fixture whose second child raises NotFound and a third
raises BackendError. -/
def treeBadNF : BNode := .dir [
  ("a.txt".data, .file [65] "text/plain".data),
  ("bad".data, .exc (.notFound "gone".data))]

/-- A tree backend fixture with a BackendError node. -/
def treeBadBE : BNode := .dir [
  ("a.txt".data, .file [65] "text/plain".data),
  ("boom".data, .exc (.backend "disk exploded".data))]

/-- A JSON backend document with the shape of the memory fixture. -/
def jsonSample : JNode := .dict [
  ("hello.txt".data, .jstr "hi".data),
  ("docs".data, .dict [("guide.txt".data, .jstr "g".data)])]

/-- A two-row CSV fixture (headers name and age). -/
def csvSample : CsvState := ⟨["name".data, "age".data],
  [[("name".data, some "Alice".data), ("age".data, some "30".data)],
   [("name".data, some "Bob".data), ("age".data, some "25".data)]]⟩

/-- A one-table SQLite fixture with eleven rows, enough for row_10. -/
def sqSample : SqliteState := ⟨[("users".data,
  { schema := "CREATE TABLE users (n TEXT)".data,
    columns := ["n".data],
    rows := (List.range 11).map (fun i => [("n".data, some (natRepr i))]) })]⟩

/-! # Theorems -/

/-- C1.  The claim predicts that GET /hello.txt against the MemoryBackend
fixture returns 200 with the thirteen bytes of the greeting, raising nothing
but the two backend error kinds.  On the code the front end hands
MemoryBackend.info the parsed segment list, whose `_normalize` call raises
AttributeError, so the handler produces no response at all; the same backend
called with the string path (as its own signature declares) would have
reported exactly the size the claim names.  The claim is the intent of the
repository (test_server.py asserts the 200 response), so the code is at
fault. -/
theorem c1_get_hello_crashes_not_200 :
    handleGetMem memSample "/hello.txt".data =
      .error (.attributeError "list object has no attribute startswith".data) ∧
    (∀ o : Option HttpResponse, handleGetMem memSample "/hello.txt".data ≠ .ok o) ∧
    mem_info memSample (.ofStr "/hello.txt".data) =
      .ok { is_dir := false, size := 13, content_type := "text/plain".data } ∧
    mem_get memSample (.ofStr "/hello.txt".data) = .ok (utf8Encode "Hello, world!".data) := by
  refine ⟨by decide, ?_, by decide, by decide⟩
  intro resp h
  rw [show handleGetMem memSample "/hello.txt".data =
    .error (.attributeError "list object has no attribute startswith".data) by decide] at h
  exact Except.noConfusion h

/-- C3 counterexample.  Listing the root of the XML backend over
r(a(x), a(y)) does not yield the single name r: the backend performs no
wrapping, so the root listing is the disambiguated children of r. -/
theorem c3_counterexample_no_wrapper_root :
    xml_list (xmlInit xmlDocRA) "/".data ≠ .ok ["r".data] ∧
    xml_list (xmlInit xmlDocRA) "/".data = .ok ["a_0".data, "a_1".data] := by
  constructor
  · intro h
    rw [show xml_list (xmlInit xmlDocRA) "/".data = .ok ["a_0".data, "a_1".data] by decide] at h
    simp at h
  · decide

/-- C3 amended.  The XML backend does not wrap the document: the backend
root is the document element itself, so for r(a(x), a(y)) the root listing
is exactly a_0 and a_1, the path /r does not exist, and the two children are
reachable directly under the root. -/
theorem c3_amended_root_is_document_element :
    xml_list (xmlInit xmlDocRA) "/".data = .ok ["a_0".data, "a_1".data] ∧
    xml_info (xmlInit xmlDocRA) "/r".data =
      .error (.notFoundError "Not found: /r".data) ∧
    xml_get (xmlInit xmlDocRA) "/a_0/_text".data = .ok (utf8Encode "x".data) ∧
    xml_get (xmlInit xmlDocRA) "/a_1/_text".data = .ok (utf8Encode "y".data) := by
  refine ⟨by decide, by decide, by decide, by decide⟩

/-- C5 counterexample.  The listing of an XML element that has both text
content and an attribute is the pair _text, _attribs, which is not in
code-point lexicographic order (_attribs sorts before _text). -/
theorem c5_counterexample_xml_listing_unsorted :
    xml_list (xmlInit xmlDocTA) "/".data = .ok ["_text".data, "_attribs".data] ∧
    ¬ List.Sorted strOrd ["_text".data, "_attribs".data] := by
  constructor
  · decide
  · intro h
    have := List.rel_of_sorted_cons h "_attribs".data (by simp)
    revert this
    decide

/-- C4 counterexample.  For the one-message mailbox whose subject is café,
the code keeps the accented letter (the re pattern of word characters is
Unicode), while the claim removes every character outside the ASCII class
and so predicts caf. -/
theorem c4_counterexample_nonascii_subject :
    mboxNames [some "café".data] = ["0000_café.eml".data] ∧
    claimMboxNames [some "café".data] = ["0000_caf.eml".data] ∧
    mboxNames [some "café".data] ≠ claimMboxNames [some "café".data] := by
  refine ⟨by decide, by decide, by decide⟩

/-- C2.  The claim says a non-empty, non-well-formed PROPFIND body is
treated as allprop and answered with a 207 multistatus.  In the code the
ET.fromstring call inside `_parse_propfind_body` is not guarded: whenever
the library parse fails on the non-blank body, do_PROPFIND propagates the
parse error and produces no response at all, for every backend, Depth header
and URL.  The specification states the allprop fallback explicitly, so the
code is at fault. -/
theorem c2_malformed_body_propagates_parse_error
    (B : BackendIface) (fromstring : Bytes → Except PyErr XNode)
    (depthHeader : Option Str) (body : Bytes) (rawUrl : Str)
    (hne : ¬ (body = [] ∨ bytesStrip body = []))
    (hfail : fromstring body = .error .parseError) :
    do_PROPFIND B fromstring depthHeader body rawUrl = .error .parseError ∧
    ∀ r : PFResult, do_PROPFIND B fromstring depthHeader body rawUrl ≠ .ok r := by
  have hparse : _parse_propfind_body fromstring body = .error .parseError := by
    unfold _parse_propfind_body
    rw [if_neg hne, hfail]
    rfl
  have hmain : do_PROPFIND B fromstring depthHeader body rawUrl = .error .parseError := by
    unfold do_PROPFIND
    rw [hparse]
    rfl
  exact ⟨hmain, fun r h => by rw [hmain] at h; exact Except.noConfusion h⟩

/-- C2 witness: the concrete body consisting of the single byte of an open
angle bracket, with a parse model that fails on it, sent to the tree
fixture. -/
theorem c2_witness :
    ¬ (([60] : Bytes) = [] ∨ bytesStrip [60] = []) ∧
    (fun _ : Bytes => (.error .parseError : Except PyErr XNode)) [60] = .error .parseError ∧
    do_PROPFIND (treeIface treeSample) (fun _ => .error .parseError) none [60] "/".data =
      .error .parseError :=
  ⟨by decide, rfl,
    (c2_malformed_body_propagates_parse_error (treeIface treeSample)
      (fun _ => .error .parseError) none [60] "/".data (by decide) rfl).1⟩

/-- The code sanitizer agrees with the amended recipe (truncating before or
after the emptiness test is indifferent because truncation to sixty keeps a
non-empty string non-empty). -/
theorem safe_filename_eq_amended (s : Str) : _safe_filename s = amended_safe_filename s := by
  unfold _safe_filename amended_safe_filename
  cases h : collapseWs (pyStripWs (s.filter fun c => pyIsWord c ∨ pyIsSpace c ∨ c = '-' ∨ c = '.')) with
  | nil => simp [h]
  | cons c t => simp [h, List.take_cons]

/-- C4 amended.  For every message list, the synthesized filenames follow
the claim with two corrections: the kept characters are the Unicode word
characters (not only the ASCII class), and the subject is stripped of
leading and trailing whitespace before whitespace runs collapse to
underscores. -/
theorem c4_amended_filenames (subjects : List (Option Str)) :
    mboxNames subjects = amendedMboxNames subjects := by
  simp [mboxNames, amendedMboxNames, safe_filename_eq_amended]

/-! ## Order lemmas for the code-point comparison -/

theorem strLe_total : ∀ a b : Str, strLe a b = true ∨ strLe b a = true
  | [], b => by cases b <;> simp [strLe]
  | _ :: _, [] => by simp [strLe]
  | a :: as, b :: bs => by
    by_cases hab : a.toNat < b.toNat
    · left; simp [strLe, hab]
    · by_cases hba : b.toNat < a.toNat
      · right; simp [strLe, hba]
      · rcases strLe_total as bs with h | h
        · left; simp [strLe, hab, hba, h]
        · right; simp [strLe, hba, hab, h]

theorem strLe_trans : ∀ a b c : Str, strLe a b = true → strLe b c = true → strLe a c = true
  | [], _, c => by intro _ _; cases c <;> simp [strLe]
  | _ :: _, [], _ => by simp [strLe]
  | _ :: _, _ :: _, [] => by intro _ h; simp [strLe] at h
  | a :: as, b :: bs, c :: cs => by
    intro h1 h2
    simp only [strLe] at h1 h2 ⊢
    by_cases hab : a.toNat < b.toNat <;> by_cases hbc : b.toNat < c.toNat <;>
        simp only [hab, hbc, if_true, if_false, ite_true, ite_false] at h1 h2 ⊢
    · have : a.toNat < c.toNat := by omega
      simp [this]
    · rcases Nat.lt_or_ge c.toNat b.toNat with hcb | hcb
      · simp [hcb] at h2
      · have : a.toNat < c.toNat := by omega
        simp [this]
    · rcases Nat.lt_or_ge b.toNat a.toNat with hba | hba
      · simp [hba] at h1
      · have : a.toNat < c.toNat := by omega
        simp [this]
    · rcases Nat.lt_or_ge b.toNat a.toNat with hba | hba
      · simp [hba] at h1
      · rcases Nat.lt_or_ge c.toNat b.toNat with hcb | hcb
        · simp [hcb] at h2
        · have h1' : strLe as bs = true := by
            by_cases h : b.toNat < a.toNat
            · omega
            · simpa [h] using h1
          have h2' : strLe bs cs = true := by
            by_cases h : c.toNat < b.toNat
            · omega
            · simpa [h] using h2
          have hac : ¬ a.toNat < c.toNat := by omega
          have hca : ¬ c.toNat < a.toNat := by omega
          simp [hac, hca]
          exact strLe_trans as bs cs h1' h2'

instance : IsTotal Str strOrd := ⟨fun a b => strLe_total a b⟩

instance : IsTrans Str strOrd := ⟨fun a b c => strLe_trans a b c⟩

/-- Python sorted returns a sorted list. -/
theorem pySorted_sorted (l : List Str) : List.Sorted strOrd (pySorted l) :=
  List.sorted_insertionSort strOrd l

/-- Python sorted returns a permutation, so it preserves freedom from
duplicates. -/
theorem pySorted_nodup {l : List Str} (h : l.Nodup) : (pySorted l).Nodup :=
  ((List.perm_insertionSort strOrd l).nodup_iff).mpr h

/-! ## Path string lemmas -/

theorem split_no_sep (sep : Char) : ∀ s : Str, (∀ c ∈ s, c ≠ sep) → pySplit sep s = [s]
  | [], _ => rfl
  | c :: rest, h => by
    have hc : c ≠ sep := h c (by simp)
    have ih := split_no_sep sep rest (fun x hx => h x (by simp [hx]))
    simp [pySplit, ih, hc]

theorem split_append_sep (sep : Char) :
    ∀ a u : Str, (∀ c ∈ a, c ≠ sep) → pySplit sep (a ++ sep :: u) = a :: pySplit sep u
  | [], u, _ => by simp [pySplit]
  | c :: a', u, h => by
    have hc : c ≠ sep := h c (by simp)
    have ih := split_append_sep sep a' u (fun x hx => h x (by simp [hx]))
    simp [pySplit, ih, hc]

theorem collapse_of_noAdj : ∀ s : Str, noAdjSlash s = true → collapseSlashes s = s
  | [], _ => rfl
  | [c], _ => rfl
  | c :: d :: rest, h => by
    simp only [noAdjSlash, Bool.and_eq_true, decide_eq_true_eq] at h
    obtain ⟨hcd, h'⟩ := h
    simp only [collapseSlashes, if_neg hcd]
    rw [collapse_of_noAdj (d :: rest) h']

theorem noAdj_of_no_slash (c₀ : Char) :
    ∀ s : Str, (∀ c ∈ s, c ≠ '/') → noAdjSlash (c₀ :: s) = true
  | [], _ => rfl
  | d :: rest, h => by
    have hd : d ≠ '/' := h d (by simp)
    have ih := noAdj_of_no_slash d rest (fun x hx => h x (by simp [hx]))
    simp only [noAdjSlash, Bool.and_eq_true, decide_eq_true_eq]
    exact ⟨fun hc => hd hc.2, ih⟩

theorem dropWhile_of_none {p : Char → Bool} :
    ∀ s : Str, (∀ c ∈ s, ¬ p c) → s.dropWhile p = s
  | [], _ => rfl
  | c :: rest, h => by
    have hc : ¬ p c := h c (by simp)
    simp [List.dropWhile, hc]

theorem stripChar_of_none (ch : Char) (s : Str) (h : ∀ c ∈ s, c ≠ ch) :
    pyStripChar ch s = s := by
  unfold pyStripChar
  rw [dropWhile_of_none s (by intro c hc; simpa using h c hc)]
  rw [dropWhile_of_none s.reverse (by intro c hc; simpa using h c (by simpa using hc))]
  simp

theorem endswith_append_singleton (ch c : Char) (l : Str) :
    pyEndswith [ch] (l ++ [c]) = decide (c = ch) := by
  unfold pyEndswith
  have hl : (l ++ [c]).length - ([ch] : Str).length = l.length := by simp
  rw [hl, List.drop_left]
  simp

theorem normalize_fixed (s : Str) (h1 : pyStartswith "/".data s = true)
    (h2 : noAdjSlash s = true) (h3 : s = "/".data ∨ pyEndswith "/".data s = false) :
    _normalize s = s := by
  have hc := collapse_of_noAdj s h2
  unfold _normalize
  simp only [h1, if_true, hc]
  rcases h3 with h3 | h3
  · simp [h3]
  · simp [h3]

theorem normalize_seg (s : Str) (hne : s ≠ []) (h : ∀ c ∈ s, c ≠ '/') :
    _normalize ('/' :: s) = '/' :: s := by
  apply normalize_fixed
  · simp [pyStartswith, List.take]
  · exact noAdj_of_no_slash '/' s h
  · right
    have hs : ('/' :: s : Str) = ('/' :: s.dropLast) ++ [s.getLast hne] := by
      simpa using (List.dropLast_append_getLast hne).symm
    rw [show ("/".data : Str) = ['/'] from rfl, hs, endswith_append_singleton]
    exact decide_eq_false (h _ (List.getLast_mem hne))

theorem except_bind_ok {α β : Type} (a : α) (f : α → Except PyErr β) :
    (Except.ok a >>= f) = f a := rfl

theorem except_bind_err {α β : Type} (e : PyErr) (f : α → Except PyErr β) :
    ((Except.error e : Except PyErr α) >>= f) = Except.error e := rfl

theorem stripChar_cons (ch : Char) (s : Str) (h : ∀ c ∈ s, c ≠ ch) :
    pyStripChar ch (ch :: s) = s := by
  unfold pyStripChar
  have h1 : (ch :: s).dropWhile (· = ch) = s.dropWhile (· = ch) := by
    simp [List.dropWhile]
  rw [h1, dropWhile_of_none s (by intro c hc; simpa using h c hc)]
  rw [dropWhile_of_none s.reverse (by intro c hc; simpa using h c (by simpa using hc))]
  simp

/-- The normalize-strip-split pipeline of every string-path backend, applied
to a one-segment path. -/
theorem parts_one_seg (s : Str) (hne : s ≠ []) (h : ∀ c ∈ s, c ≠ '/') :
    _normalize ('/' :: s) = '/' :: s ∧ ('/' :: s : Str) ≠ "/".data ∧
    pySplit '/' (pyStripChar '/' ('/' :: s)) = [s] := by
  refine ⟨normalize_seg s hne h, ?_, ?_⟩
  · intro hcon
    rw [show ("/".data : Str) = ['/'] from rfl] at hcon
    exact hne (by injection hcon)
  · rw [stripChar_cons '/' s h, split_no_sep '/' s h]

/-- Entries of a well-formed dict are well-formed. -/
theorem memChildrenWF_mem {entries : List (Str × MemNode)} {e : Str × MemNode}
    (hwf : memWF.memChildrenWF entries = true) (hmem : e ∈ entries) : memWF e.2 = true := by
  induction entries with
  | nil => cases hmem
  | cons a rest ih =>
    simp only [memWF.memChildrenWF, Bool.and_eq_true, decide_eq_true_eq] at hwf
    rcases List.mem_cons.mp hmem with he | he
    · rw [he]; exact hwf.1
    · exact ih hwf.2 he

/-- Resolution in a well-formed memory tree yields a well-formed node. -/
theorem memWF_go {n : MemNode} :
    ∀ (parts : List Str) (node : MemNode) (path : Str), memWF node = true →
      mem_resolve.go node parts path = .ok n → memWF n = true
  | [], node, _, hwf, h => by
    simp only [mem_resolve.go] at h
    injection h with h
    rw [← h]; exact hwf
  | part :: rest, node, path, hwf, h => by
    cases node with
    | bytesVal d => simp [mem_resolve.go] at h
    | strVal s => simp [mem_resolve.go] at h
    | dict entries =>
      simp only [mem_resolve.go] at h
      cases hfind : dictLookup entries part with
      | none => rw [hfind] at h; simp at h
      | some child =>
        rw [hfind] at h
        have hchild : memWF child = true := by
          obtain ⟨p, hp, hp2⟩ : ∃ p, p ∈ entries ∧ p.2 = child := by
            unfold dictLookup at hfind
            cases hf : entries.find? (fun e => e.1 = part) with
            | none => rw [hf] at hfind; simp at hfind
            | some p =>
              rw [hf] at hfind
              exact ⟨p, List.mem_of_find?_eq_some hf, by simpa using hfind⟩
          rw [← hp2]
          simp only [memWF, decide_eq_true_eq] at hwf
          exact memChildrenWF_mem hwf.2 hp
        exact memWF_go rest child path hchild h

theorem memWF_resolve {t n : MemNode} {p : PyPath} (hwf : memWF t = true)
    (h : mem_resolve t p = .ok n) : memWF n = true := by
  unfold mem_resolve at h
  cases hn : _normalize_py p with
  | error e => rw [hn, except_bind_err] at h; exact absurd h (by simp)
  | ok path =>
    rw [hn, except_bind_ok] at h
    by_cases hroot : path = ['/']
    · rw [if_pos hroot] at h
      injection h with h
      rw [← h]; exact hwf
    · rw [if_neg hroot] at h
      exact memWF_go _ t _ hwf h

/-! ## Decimal representation lemmas -/

theorem digitChar10_facts (m : Nat) (h : m < 10) :
    digitChar10 m ≠ '_' ∧ (digitChar10 m).toNat - 48 = m ∧ isAsciiDigit (digitChar10 m) = true := by
  interval_cases m <;> refine ⟨by decide, by decide, by decide⟩

theorem digitsValue_append_singleton (l : Str) (d : Char) :
    digitsValue (l ++ [d]) =
      if d = '_' then digitsValue l else digitsValue l * 10 + (d.toNat - 48) := by
  unfold digitsValue
  rw [List.foldl_append]
  rfl

theorem natReprAux_spec : ∀ fuel n, n < fuel →
    natReprAux fuel n ≠ [] ∧ (∀ c ∈ natReprAux fuel n, isAsciiDigit c = true) ∧
      digitsValue (natReprAux fuel n) = n
  | 0, n, h => absurd h (by omega)
  | fuel + 1, n, h => by
    by_cases h10 : n < 10
    · refine ⟨by simp [natReprAux, h10], ?_, ?_⟩
      · intro c hc
        simp [natReprAux, h10] at hc
        rw [hc]
        exact (digitChar10_facts n h10).2.2
      · simp only [natReprAux, if_pos h10]
        show digitsValue [digitChar10 n] = n
        rw [show ([digitChar10 n] : Str) = [] ++ [digitChar10 n] by simp,
          digitsValue_append_singleton]
        rw [if_neg (digitChar10_facts n h10).1]
        show 0 * 10 + ((digitChar10 n).toNat - 48) = n
        rw [(digitChar10_facts n h10).2.1]
        omega
    · have hdiv : n / 10 < fuel := by
        have := Nat.div_lt_self (show 0 < n by omega) (show 1 < 10 by omega)
        omega
      obtain ⟨ih1, ih2, ih3⟩ := natReprAux_spec fuel (n / 10) hdiv
      have hm : n % 10 < 10 := Nat.mod_lt n (by omega)
      refine ⟨by simp [natReprAux, h10], ?_, ?_⟩
      · intro c hc
        simp only [natReprAux, if_neg h10, List.mem_append, List.mem_singleton] at hc
        rcases hc with hc | hc
        · exact ih2 c hc
        · rw [hc]; exact (digitChar10_facts _ hm).2.2
      · simp only [natReprAux, if_neg h10]
        rw [digitsValue_append_singleton, if_neg (digitChar10_facts _ hm).1, ih3,
          (digitChar10_facts _ hm).2.1]
        omega

theorem natRepr_spec (n : Nat) :
    natRepr n ≠ [] ∧ (∀ c ∈ natRepr n, isAsciiDigit c = true) ∧ digitsValue (natRepr n) = n :=
  natReprAux_spec (n + 1) n (by omega)

theorem natRepr_inj {a b : Nat} (h : natRepr a = natRepr b) : a = b := by
  have ha := (natRepr_spec a).2.2
  have hb := (natRepr_spec b).2.2
  rw [h] at ha
  omega

theorem digit_ne_underscore {c : Char} (h : isAsciiDigit c = true) : c ≠ '_' := by
  intro he
  rw [he] at h
  exact absurd h (by decide)

theorem go_all_digits : ∀ s : Str, (∀ c ∈ s, isAsciiDigit c = true) → pyValidDigits.go s = true
  | [], _ => rfl
  | c :: r, h => by
    have hc := h c (by simp)
    have ih := go_all_digits r (fun x hx => h x (by simp [hx]))
    unfold pyValidDigits.go
    rw [if_neg (digit_ne_underscore hc)]
    simp [hc, ih]

theorem validDigits_all_digits (s : Str) (hne : s ≠ [])
    (h : ∀ c ∈ s, isAsciiDigit c = true) : pyValidDigits s = true := by
  cases s with
  | nil => exact absurd rfl hne
  | cons c r =>
    have hc := h c (by simp)
    have hr := go_all_digits r (fun x hx => h x (by simp [hx]))
    simp [pyValidDigits, hc, hr]

theorem digit_not_space {c : Char} (h : isAsciiDigit c = true) : pyIsSpace c = false := by
  simp only [isAsciiDigit, Bool.decide_and, Bool.and_eq_true, decide_eq_true_eq] at h
  simp only [pyIsSpace, Bool.eq_false_iff, ne_eq, decide_eq_true_eq]
  omega

theorem stripWs_of_no_ws (s : Str) (h : ∀ c ∈ s, pyIsSpace c = false) : pyStripWs s = s := by
  unfold pyStripWs
  rw [dropWhile_of_none s (by intro c hc; simp [h c hc])]
  rw [dropWhile_of_none s.reverse (by intro c hc; simp [h c (by simpa using hc)])]
  simp

/-- Parsing the decimal representation of a natural number, optionally
zero-padded, yields the number back. -/
theorem pyIntParse_pad (w k : Nat) :
    pyIntParse (List.replicate w '0' ++ natRepr k) = some (k : Int) := by
  obtain ⟨hne, hdig, hval⟩ := natRepr_spec k
  have hall : ∀ c ∈ List.replicate w '0' ++ natRepr k, isAsciiDigit c = true := by
    intro c hc
    rcases List.mem_append.mp hc with hc | hc
    · rw [List.eq_of_mem_replicate hc]; decide
    · exact hdig c hc
  have hnil : List.replicate w '0' ++ natRepr k ≠ [] := by
    simp [hne]
  have hstrip : pyStripWs (List.replicate w '0' ++ natRepr k) =
      List.replicate w '0' ++ natRepr k :=
    stripWs_of_no_ws _ (fun c hc => digit_not_space (hall c hc))
  have hvalid := validDigits_all_digits _ hnil hall
  have hzeros : ∀ w', digitsValue (List.replicate w' '0' ++ natRepr k) = k := by
    intro w'
    induction w' with
    | zero => simpa using hval
    | succ w'' ih =>
      show digitsValue ('0' :: (List.replicate w'' '0' ++ natRepr k)) = k
      -- folding a leading zero keeps the accumulator at zero
      unfold digitsValue at ih ⊢
      simp only [List.foldl_cons]
      convert ih using 2
  unfold pyIntParse
  rw [hstrip]
  cases hcase : List.replicate w '0' ++ natRepr k with
  | nil => exact absurd hcase hnil
  | cons c r =>
    have hcdig : isAsciiDigit c = true := hall c (by rw [hcase]; simp)
    have hplus : c ≠ '+' := by
      intro he; rw [he] at hcdig; exact absurd hcdig (by decide)
    have hminus : c ≠ '-' := by
      intro he; rw [he] at hcdig; exact absurd hcdig (by decide)
    simp only [if_neg hplus, if_neg hminus]
    rw [← hcase, if_pos hvalid, hzeros w]

/-- Parsing the unpadded decimal representation. -/
theorem pyIntParse_natRepr (k : Nat) : pyIntParse (natRepr k) = some (k : Int) := by
  have := pyIntParse_pad 0 k
  simpa using this

/-! ## Listing order lemmas -/

theorem mem_list_sorted {t : MemNode} {p : PyPath} {xs : List Str}
    (h : mem_list t p = .ok xs) : List.Sorted strOrd xs := by
  unfold mem_list at h
  cases hres : mem_resolve t p with
  | error e => rw [hres, except_bind_err] at h; exact absurd h (by simp)
  | ok node =>
    rw [hres, except_bind_ok] at h
    cases node with
    | dict entries =>
      simp only [Except.ok.injEq] at h
      rw [← h]
      exact pySorted_sorted _
    | strVal s => simp at h
    | bytesVal d => simp at h

theorem mem_list_nodup {t : MemNode} {p : PyPath} {xs : List Str}
    (hwf : memWF t = true) (h : mem_list t p = .ok xs) : xs.Nodup := by
  unfold mem_list at h
  cases hres : mem_resolve t p with
  | error e => rw [hres, except_bind_err] at h; exact absurd h (by simp)
  | ok node =>
    rw [hres, except_bind_ok] at h
    have hnwf := memWF_resolve hwf hres
    cases node with
    | dict entries =>
      simp only [Except.ok.injEq] at h
      rw [← h]
      simp only [memWF, decide_eq_true_eq] at hnwf
      exact pySorted_nodup hnwf.1
    | strVal s => simp at h
    | bytesVal d => simp at h

theorem xml_list_root (n : XmlNode) :
    xml_list n "/".data = .ok
      (((if n.text.isSome then ["_text".data] else []) ++
        (if n.attribs.isSome then ["_attribs".data] else [])) ++
       pySorted (n.children.map Prod.fst)) := rfl

theorem sq_list_table {st : SqliteState} {table : Str} {t : SqTable}
    (hne : table ≠ []) (hns : ∀ c ∈ table, c ≠ '/') (ht : sqTable st table = some t) :
    sq_list st ('/' :: table) = .ok ("_schema.sql".data ::
      (List.range t.rows.length).map (fun i => "row_".data ++ natRepr i)) := by
  obtain ⟨hnorm, hroot, hsplit⟩ := parts_one_seg table hne hns
  unfold sq_list
  simp only [hnorm, hsplit, if_neg hroot, ht]

theorem sq_table_listing_nodup (count : Nat) :
    ("_schema.sql".data :: (List.range count).map (fun i => "row_".data ++ natRepr i)).Nodup := by
  rw [List.nodup_cons]
  constructor
  · intro hmem
    simp only [List.mem_map, List.mem_range] at hmem
    obtain ⟨i, _, hi⟩ := hmem
    rw [show (['r', 'o', 'w', '_'] ++ natRepr i : Str) =
      'r' :: (['o', 'w', '_'] ++ natRepr i) from rfl] at hi
    simp at hi
  · refine List.Nodup.map ?_ (List.nodup_range count)
    intro a b hab
    exact natRepr_inj (List.append_cancel_left hab)

/-- C5 amended.  MemoryBackend listings are sorted in code-point order and,
for a well-formed dict tree, duplicate-free; the mbox backend returns its
names in insertion order; but listings are not sorted for every backend: an
XML element is listed as the optional _text entry, then the optional
_attribs entry, then the sorted children (so an element with both text and
attributes is listed out of order), and a SQLite table is listed as
_schema.sql followed by row_N in numeric order, duplicate-free but not in
lexicographic order once the table has eleven rows. -/
theorem c5_amended_listing_order :
    (∀ (t : MemNode) (p : PyPath) (xs : List Str), mem_list t p = .ok xs →
      List.Sorted strOrd xs) ∧
    (∀ (t : MemNode) (p : PyPath) (xs : List Str), memWF t = true → mem_list t p = .ok xs →
      xs.Nodup) ∧
    (∀ n : XmlNode, xml_list n "/".data = .ok
      (((if n.text.isSome then ["_text".data] else []) ++
        (if n.attribs.isSome then ["_attribs".data] else [])) ++
       pySorted (n.children.map Prod.fst))) ∧
    (∀ (st : SqliteState) (table : Str) (t : SqTable), table ≠ [] →
      (∀ c ∈ table, c ≠ '/') → sqTable st table = some t →
      sq_list st ('/' :: table) = .ok ("_schema.sql".data ::
        (List.range t.rows.length).map (fun i => "row_".data ++ natRepr i))) ∧
    (∀ count : Nat,
      ("_schema.sql".data ::
        (List.range count).map (fun i => "row_".data ++ natRepr i)).Nodup) ∧
    ¬ List.Sorted strOrd ("_schema.sql".data ::
        (List.range 11).map (fun i => "row_".data ++ natRepr i)) ∧
    (∀ subjects : List (Option Str), mbox_list_root subjects = mboxNames subjects) := by
  refine ⟨fun t p xs h => mem_list_sorted h,
    fun t p xs hwf h => mem_list_nodup hwf h,
    xml_list_root,
    fun st table t hne hns ht => sq_list_table hne hns ht,
    sq_table_listing_nodup,
    ?_,
    fun subjects => rfl⟩
  decide

/-- C5 witness: the amended ordering facts instantiated on the memory and
SQLite fixtures. -/
theorem c5_amended_witness :
    mem_list memSample (.ofStr "/".data) = .ok ["docs".data, "hello.txt".data] ∧
    List.Sorted strOrd ["docs".data, "hello.txt".data] ∧
    (["docs".data, "hello.txt".data] : List Str).Nodup ∧
    sq_list sqSample ('/' :: "users".data) = .ok ("_schema.sql".data ::
      (List.range 11).map (fun i => "row_".data ++ natRepr i)) := by
  have hmem : mem_list memSample (.ofStr "/".data) = .ok ["docs".data, "hello.txt".data] := by
    decide
  refine ⟨hmem, c5_amended_listing_order.1 memSample _ _ hmem,
    c5_amended_listing_order.2.1 memSample _ _ (by decide) hmem, ?_⟩
  exact c5_amended_listing_order.2.2.2.1 sqSample "users".data
    { schema := "CREATE TABLE users (n TEXT)".data,
      columns := ["n".data],
      rows := (List.range 11).map (fun i => [("n".data, some (natRepr i))]) }
    (by decide) (by decide) rfl

/-! ## Quote, unquote and split-join lemmas -/

theorem quote_safe (s : Str) (h : ∀ c ∈ s, alwaysSafe c = true) : pyQuote s = s := by
  unfold pyQuote
  induction s with
  | nil => rfl
  | cons c rest ih =>
    rw [List.flatMap_cons, if_pos (h c (by simp)), ih (fun x hx => h x (by simp [hx]))]
    rfl

theorem safe_not_pct {c : Char} (h : alwaysSafe c = true) : c ≠ '%' := by
  intro he
  rw [he] at h
  exact absurd h (by decide)

theorem pyUnquote_cons_ne {c : Char} (rest : Str) (hc : c ≠ '%') :
    pyUnquote (c :: rest) = c :: pyUnquote rest := by
  conv_lhs => rw [pyUnquote.eq_def]
  split
  · next _ heq => exact absurd heq (by simp)
  · next _ a b r heq =>
    injection heq with h1 h2
    exact absurd h1 hc
  · next _ c' rest' _ heq =>
    injection heq with h1 h2
    rw [h1, h2]

theorem unquote_no_pct (s : Str) (h : ∀ c ∈ s, c ≠ '%') : pyUnquote s = s := by
  induction s with
  | nil => rfl
  | cons c rest ih =>
    rw [pyUnquote_cons_ne rest (h c (by simp)), ih (fun x hx => h x (by simp [hx]))]

theorem pyJoin_cons_cons (sep : Str) (x y : Str) (l : List Str) :
    pyJoin sep (x :: y :: l) = x ++ sep ++ pyJoin sep (y :: l) := rfl

theorem split_join : ∀ segs : List Str, segs ≠ [] →
    (∀ seg ∈ segs, ∀ c ∈ seg, c ≠ '/') →
    pySplit '/' (pyJoin "/".data segs) = segs
  | [], h, _ => absurd rfl h
  | [a], _, h => by
    show pySplit '/' a = [a]
    exact split_no_sep '/' a (h a (by simp))
  | a :: b :: rest, _, h => by
    rw [pyJoin_cons_cons]
    have ha : ∀ c ∈ a, c ≠ '/' := h a (by simp)
    have ih := split_join (b :: rest) (by simp) (fun seg hs => h seg (by simp [hs]))
    rw [show (a ++ "/".data ++ pyJoin "/".data (b :: rest) : Str) =
      a ++ '/' :: pyJoin "/".data (b :: rest) by simp]
    rw [split_append_sep '/' a _ ha, ih]

/-- The front-end parser recovers the segment list from a canonical path
whose segments are non-empty, slash-free and percent-free. -/
theorem parse_path_join (segs : List Str)
    (h : ∀ seg ∈ segs, seg ≠ [] ∧ (∀ c ∈ seg, c ≠ '/') ∧ (∀ c ∈ seg, c ≠ '%')) :
    _parse_path ('/' :: pyJoin "/".data segs) = segs := by
  unfold _parse_path
  have hnp : ∀ c ∈ ('/' :: pyJoin "/".data segs : Str), c ≠ '%' := by
    intro c hc0
    rcases List.mem_cons.mp hc0 with hc | hc
    · rw [hc]; decide
    · clear hc0
      induction segs with
      | nil => simp [pyJoin] at hc
      | cons a rest ih =>
        cases rest with
        | nil =>
          exact (h a (by simp)).2.2 c hc
        | cons b rest' =>
          rw [pyJoin_cons_cons] at hc
          simp only [List.append_assoc, List.mem_append] at hc
          rcases hc with hc | hc
          · exact (h a (by simp)).2.2 c hc
          · rcases (by simpa using hc : c = '/' ∨ c ∈ pyJoin "/".data (b :: rest')) with hc | hc
            · rw [hc]; decide
            · exact ih (fun seg hs => h seg (by simp [hs])) hc
  rw [unquote_no_pct _ hnp]
  cases segs with
  | nil =>
    show ((pySplit '/' ['/']).filter (· ≠ [])) = []
    decide
  | cons a rest =>
    rw [show ('/' :: pyJoin "/".data (a :: rest) : Str) =
      [] ++ '/' :: pyJoin "/".data (a :: rest) by simp]
    rw [split_append_sep '/' [] _ (by simp)]
    rw [split_join (a :: rest) (by simp) (fun seg hs => (h seg hs).2.1)]
    rw [List.filter_cons_of_neg (by simp)]
    exact List.filter_eq_self.mpr (fun seg hs => by simpa using (h seg hs).1)

/-- C9.  The URL path parser returns exactly the non-empty slash-separated
components of the percent-decoded path and keeps dot and dot-dot as literal
segment names: rebuilding any canonical segment sequence (dot-dot included)
round-trips through the parser unchanged, GET /docs/../hello.txt is parsed
as the literal sequence docs, dot-dot, hello.txt, and looking that sequence
up in a JSON backend without such names raises NotFound even though
hello.txt exists at the root. -/
theorem c9_dotdot_literal :
    (∀ segs : List Str,
      (∀ seg ∈ segs, seg ≠ [] ∧ (∀ c ∈ seg, c ≠ '/') ∧ (∀ c ∈ seg, c ≠ '%')) →
      _parse_path ('/' :: pyJoin "/".data segs) = segs) ∧
    _parse_path "/docs/../hello.txt".data = ["docs".data, "..".data, "hello.txt".data] ∧
    json_resolve jsonSample ["docs".data, "..".data, "hello.txt".data] =
      .error (.notFoundError "Not found".data) ∧
    json_resolve jsonSample ["hello.txt".data] = .ok (.jstr "hi".data) :=
  ⟨parse_path_join, by decide, rfl, rfl⟩

/-- C9 witness: the round trip applied to the literal docs, dot-dot,
hello.txt sequence. -/
theorem c9_witness :
    _parse_path ('/' :: pyJoin "/".data ["docs".data, "..".data, "hello.txt".data]) =
      ["docs".data, "..".data, "hello.txt".data] :=
  c9_dotdot_literal.1 ["docs".data, "..".data, "hello.txt".data] (by decide)

/-! ## Canonical path lemmas -/

theorem isCanonicalPath_iff {s : Str} : isCanonicalPath s = true ↔
    pyStartswith "/".data s = true ∧ noAdjSlash s = true ∧
      (s = "/".data ∨ pyEndswith "/".data s = false) := by
  simp [isCanonicalPath, Bool.and_eq_true, Bool.or_eq_true, Bool.not_eq_true',
    and_assoc]

theorem noAdj_tail {x : Char} {L : Str} (h : noAdjSlash (x :: L) = true) :
    noAdjSlash L = true := by
  cases L with
  | nil => rfl
  | cons y L' =>
    simp only [noAdjSlash, Bool.and_eq_true, decide_eq_true_eq] at h
    exact h.2

theorem noAdj_suffix : ∀ (l L : Str), noAdjSlash (l ++ L) = true → noAdjSlash L = true
  | [], _, h => h
  | x :: l', L, h => noAdj_suffix l' L (noAdj_tail (by simpa using h))

theorem dropWhile_head_false {p : Char → Bool} :
    ∀ (l : Str) {c : Char} {u : Str}, l.dropWhile p = c :: u → p c = false
  | [], _, _, h => by simp at h
  | x :: l', c, u, h => by
    by_cases hx : p x
    · rw [List.dropWhile_cons, if_pos hx] at h
      exact dropWhile_head_false l' h
    · rw [List.dropWhile_cons, if_neg hx] at h
      injection h with h1 _
      rw [← h1]
      exact Bool.eq_false_iff.mpr hx

/-- C7 counterexample.  The string /a b is canonical in the claim's sense
(leading slash, no doubled or trailing separator, non-empty segment), yet
parsing and re-emitting it percent-encodes the space, so the round trip is
not the identity. -/
theorem c7_counterexample_space_reencoded :
    isCanonicalPath "/a b".data = true ∧
    _to_href (_parse_path "/a b".data) false = "/a%20b".data ∧
    _to_href (_parse_path "/a b".data) false ≠ "/a b".data := by
  refine ⟨by decide, by decide, by decide⟩

theorem c7_aux : ∀ (n : Nat) (s : Str), s.length ≤ n → isCanonicalPath s = true →
    (∀ c ∈ s, c = '/' ∨ alwaysSafe c = true) → _to_href (_parse_path s) false = s := by
  intro n
  induction n with
  | zero =>
    intro s hlen hcan _
    have hs : s = [] := List.length_eq_zero.mp (Nat.le_zero.mp hlen)
    rw [hs] at hcan
    exact absurd hcan (by decide)
  | succ n ih =>
    intro s hlen hcan hsafe
    obtain ⟨hstart, hadj, hend⟩ := isCanonicalPath_iff.mp hcan
    obtain ⟨t, rfl⟩ : ∃ t, s = '/' :: t := by
      cases s with
      | nil => exact absurd hstart (by decide)
      | cons c t =>
        refine ⟨t, ?_⟩
        have : [c] = ['/'] := by
          simpa [pyStartswith, List.take] using hstart
        simp at this
        rw [this]
    by_cases ht : t = []
    · rw [ht]
      decide
    · have hsp : ∀ c ∈ ('/' :: t : Str), c ≠ '%' := by
        intro c hc
        rcases hsafe c hc with h | h
        · rw [h]; decide
        · exact safe_not_pct h
      set a := t.takeWhile (fun c => c ≠ '/') with ha_def
      set r := t.dropWhile (fun c => c ≠ '/') with hr_def
      have hat : a ++ r = t := List.takeWhile_append_dropWhile _ _
      have ha_noslash : ∀ c ∈ a, c ≠ '/' := by
        intro c hc
        have := List.mem_takeWhile_imp hc
        simpa using this
      have ha_ne : a ≠ [] := by
        cases t with
        | nil => exact absurd rfl ht
        | cons d t' =>
          have hd : d ≠ '/' := by
            intro he
            rw [he] at hadj
            rw [show noAdjSlash ('/' :: '/' :: t') = false by simp [noAdjSlash]] at hadj
            exact Bool.noConfusion hadj
          rw [ha_def]
          simp [List.takeWhile, hd]
      have hs_ne_root : ('/' :: t : Str) ≠ "/".data := by
        intro he
        rw [show ("/".data : Str) = ['/'] from rfl] at he
        injection he with _ h2
        exact ht h2
      have hend' : pyEndswith "/".data ('/' :: t) = false := by
        rcases hend with h | h
        · exact absurd h hs_ne_root
        · exact h
      cases hr : r with
      | nil =>
        have hta : t = a := by rw [← hat, hr, List.append_nil]
        have hjoin : ('/' :: t : Str) = '/' :: pyJoin "/".data [a] := by rw [hta]; rfl
        rw [hjoin, parse_path_join [a] ?_]
        · show _to_href [a] false = '/' :: pyJoin "/".data [a]
          unfold _to_href
          have hq : pyQuote a = a := by
            apply quote_safe
            intro c hc
            rcases hsafe c (by rw [hta]; exact List.mem_cons_of_mem _ hc) with h | h
            · exact absurd h (ha_noslash c hc)
            · exact h
          simp [hq]
        · intro seg hseg
          rw [List.mem_singleton] at hseg
          rw [hseg]
          refine ⟨ha_ne, ha_noslash, ?_⟩
          intro c hc
          exact hsp c (by rw [hta]; exact List.mem_cons_of_mem _ hc)
      | cons rc u =>
        have hrc : rc = '/' := by
          have := dropWhile_head_false t (hr_def ▸ hr)
          simpa using this
        subst hrc
        have ht_eq : t = a ++ '/' :: u := by rw [← hat, hr]
        have hu_ne : u ≠ [] := by
          intro hu
          rw [hu] at ht_eq
          have hs_eq : ('/' :: t : Str) = ('/' :: a) ++ ['/'] := by
            rw [ht_eq]; simp
          rw [show ("/".data : Str) = ['/'] from rfl, hs_eq,
            endswith_append_singleton] at hend'
          simp at hend'
        -- the shorter canonical tail
        have hsplit_s : ('/' :: t : Str) = ('/' :: a) ++ ('/' :: u) := by
          rw [ht_eq]; simp
        have hcan' : isCanonicalPath ('/' :: u) = true := by
          rw [isCanonicalPath_iff]
          refine ⟨by simp [pyStartswith, List.take], ?_, ?_⟩
          · apply noAdj_suffix ('/' :: a) ('/' :: u)
            rw [← hsplit_s]
            exact hadj
          · right
            have hulast : u = u.dropLast ++ [u.getLast hu_ne] := by
              simp [List.dropLast_append_getLast hu_ne]
            have h1 : ('/' :: u : Str) = ('/' :: u.dropLast) ++ [u.getLast hu_ne] := by
              conv_lhs => rw [hulast]
              rfl
            have h2 : ('/' :: t : Str) =
                ('/' :: a ++ '/' :: u.dropLast) ++ [u.getLast hu_ne] := by
              rw [ht_eq]
              conv_lhs => rw [hulast]
              simp
            rw [show ("/".data : Str) = ['/'] from rfl] at hend' ⊢
            rw [h1, endswith_append_singleton]
            rw [h2, endswith_append_singleton] at hend'
            exact hend'
        have hlen' : ('/' :: u : Str).length ≤ n := by
          have h1 : ('/' :: t : Str).length ≤ n + 1 := hlen
          have h2 : t.length = a.length + 1 + u.length := by
            rw [ht_eq]; simp; omega
          have h3 : 0 < a.length := List.length_pos.mpr ha_ne
          simp only [List.length_cons] at h1 ⊢
          omega
        have hsafe' : ∀ c ∈ ('/' :: u : Str), c = '/' ∨ alwaysSafe c = true := by
          intro c hc
          apply hsafe
          rw [hsplit_s]
          rcases List.mem_cons.mp hc with hc | hc
          · rw [hc]; simp
          · simp [hc]
        have ihh := ih ('/' :: u) hlen' hcan' hsafe'
        -- parse of the longer path
        have hsp' : ∀ c ∈ ('/' :: u : Str), c ≠ '%' := by
          intro c hc
          apply hsp
          rw [hsplit_s]
          rcases List.mem_cons.mp hc with hc | hc
          · rw [hc]; simp
          · simp [hc]
        have hparse : _parse_path ('/' :: t) = a :: _parse_path ('/' :: u) := by
          unfold _parse_path
          rw [unquote_no_pct _ hsp, unquote_no_pct _ hsp']
          rw [show ('/' :: t : Str) = [] ++ '/' :: (a ++ '/' :: u) by rw [ht_eq]; simp]
          rw [split_append_sep '/' [] _ (by simp)]
          rw [split_append_sep '/' a _ ha_noslash]
          rw [show ('/' :: u : Str) = [] ++ '/' :: u by simp]
          rw [split_append_sep '/' [] _ (by simp)]
          rw [List.filter_cons_of_neg (by simp)]
          rw [List.filter_cons_of_pos (by simpa using ha_ne)]
          rw [List.filter_cons_of_neg (by simp)]
        rw [hparse]
        -- the tail parse is non-empty because its href is not the root
        have hpne : _parse_path ('/' :: u) ≠ [] := by
          intro h0
          rw [h0] at ihh
          have : (['/'] : Str) = '/' :: u := by
            simpa [_to_href, pyJoin] using ihh
          injection this with _ h2
          exact hu_ne h2.symm
        obtain ⟨x, l, hxl⟩ : ∃ x l, _parse_path ('/' :: u) = x :: l := by
          cases hc : _parse_path ('/' :: u) with
          | nil => exact absurd hc hpne
          | cons x l => exact ⟨x, l, rfl⟩
        have hq : pyQuote a = a := by
          apply quote_safe
          intro c hc
          rcases hsafe c (by rw [hsplit_s]; simp [hc]) with h | h
          · exact absurd h (ha_noslash c hc)
          · exact h
        rw [hxl] at ihh
        unfold _to_href at ihh ⊢
        simp only [Bool.false_eq_true, false_and, if_false, List.map_cons] at ihh ⊢
        have htail : pyJoin "/".data (pyQuote x :: l.map pyQuote) = u := by
          injection ihh
        rw [hq, hxl, List.map_cons, pyJoin_cons_cons, htail, ht_eq]
        simp

/-- C7 amended.  Parsing a path string into segments and re-emitting it with
the href builder (each segment percent-encoded individually, no trailing
slash) is the identity on canonical inputs whose characters are the
characters quote leaves unescaped (ASCII letters, digits, underscore, dot,
hyphen, tilde) and the separator; a canonical input holding any other
character, such as a space, is re-emitted percent-encoded instead. -/
theorem c7_amended_roundtrip (s : Str) (hcan : isCanonicalPath s = true)
    (hsafe : ∀ c ∈ s, c = '/' ∨ alwaysSafe c = true) :
    _to_href (_parse_path s) false = s :=
  c7_aux s.length s le_rfl hcan hsafe

/-- C7 witness: the round trip on /docs/guide.txt. -/
theorem c7_amended_witness :
    isCanonicalPath "/docs/guide.txt".data = true ∧
    _to_href (_parse_path "/docs/guide.txt".data) false = "/docs/guide.txt".data :=
  ⟨by decide, c7_amended_roundtrip "/docs/guide.txt".data (by decide) (by decide)⟩

/-! ## Row-name alias lemmas (CSV and SQLite) -/

theorem mem_stripWs {c : Char} {s : Str} (hc : c ∈ s) :
    pyIsSpace c = true ∨ c ∈ pyStripWs s := by
  have hsplit : s.takeWhile pyIsSpace ++ s.dropWhile pyIsSpace = s :=
    List.takeWhile_append_dropWhile pyIsSpace s
  rw [← hsplit] at hc
  rcases List.mem_append.mp hc with h1 | h1
  · exact Or.inl (List.mem_takeWhile_imp h1)
  · have h2 : c ∈ (s.dropWhile pyIsSpace).reverse := List.mem_reverse.mpr h1
    have hsplit2 : (s.dropWhile pyIsSpace).reverse.takeWhile pyIsSpace ++
        (s.dropWhile pyIsSpace).reverse.dropWhile pyIsSpace =
        (s.dropWhile pyIsSpace).reverse :=
      List.takeWhile_append_dropWhile pyIsSpace (s.dropWhile pyIsSpace).reverse
    rw [← hsplit2] at h2
    rcases List.mem_append.mp h2 with h3 | h3
    · exact Or.inl (List.mem_takeWhile_imp h3)
    · right
      unfold pyStripWs
      exact List.mem_reverse.mpr h3

theorem validDigits_go_chars : ∀ s : Str, pyValidDigits.go s = true →
    ∀ c ∈ s, isAsciiDigit c = true ∨ c = '_'
  | [], _, c, hc => absurd hc (by simp)
  | c₀ :: r, h, c, hc => by
    unfold pyValidDigits.go at h
    by_cases h0 : c₀ = '_'
    · rw [if_pos h0] at h
      cases r with
      | nil => exact absurd h (by simp)
      | cons d r' =>
        simp only [Bool.and_eq_true, decide_eq_true_eq] at h
        rcases List.mem_cons.mp hc with rfl | hc'
        · exact Or.inr h0
        rcases List.mem_cons.mp hc' with rfl | hc''
        · exact Or.inl h.1
        · exact validDigits_go_chars r' h.2 c hc''
    · rw [if_neg h0] at h
      simp only [Bool.and_eq_true, decide_eq_true_eq] at h
      rcases List.mem_cons.mp hc with rfl | hc'
      · exact Or.inl h.1
      · exact validDigits_go_chars r h.2 c hc'

theorem validDigits_chars {s : Str} (h : pyValidDigits s = true) :
    ∀ c ∈ s, isAsciiDigit c = true ∨ c = '_' := by
  cases s with
  | nil => simp [pyValidDigits] at h
  | cons c₀ r =>
    simp only [pyValidDigits, Bool.and_eq_true, decide_eq_true_eq] at h
    intro c hc
    rcases List.mem_cons.mp hc with rfl | hc'
    · exact Or.inl h.1
    · exact validDigits_go_chars r h.2 c hc'

theorem pyIntParse_chars {s : Str} {k : Int} (h : pyIntParse s = some k) :
    ∀ c ∈ s, pyIsSpace c = true ∨ isAsciiDigit c = true ∨ c = '+' ∨ c = '-' ∨ c = '_' := by
  intro c hc
  rcases mem_stripWs hc with hsp | hmem
  · exact Or.inl hsp
  unfold pyIntParse at h
  cases hstrip : pyStripWs s with
  | nil => rw [hstrip] at hmem; cases hmem
  | cons c₀ r =>
    rw [hstrip] at h hmem
    replace h : (if c₀ = '+' then
        (if pyValidDigits r = true then some ((digitsValue r : Int)) else none)
      else if c₀ = '-' then
        (if pyValidDigits r = true then some (-(digitsValue r : Int)) else none)
      else
        (if pyValidDigits (c₀ :: r) = true then
          some ((digitsValue (c₀ :: r) : Int)) else none)) = some k := h
    by_cases h0 : c₀ = '+'
    · rw [if_pos h0] at h
      by_cases hv : pyValidDigits r = true
      · rcases List.mem_cons.mp hmem with rfl | hc'
        · exact Or.inr (Or.inr (Or.inl h0))
        · rcases validDigits_chars hv c hc' with hd | hu
          · exact Or.inr (Or.inl hd)
          · exact Or.inr (Or.inr (Or.inr (Or.inr hu)))
      · rw [if_neg hv] at h; cases h
    · rw [if_neg h0] at h
      by_cases h1 : c₀ = '-'
      · rw [if_pos h1] at h
        by_cases hv : pyValidDigits r = true
        · rcases List.mem_cons.mp hmem with rfl | hc'
          · exact Or.inr (Or.inr (Or.inr (Or.inl h1)))
          · rcases validDigits_chars hv c hc' with hd | hu
            · exact Or.inr (Or.inl hd)
            · exact Or.inr (Or.inr (Or.inr (Or.inr hu)))
        · rw [if_neg hv] at h; cases h
      · rw [if_neg h1] at h
        by_cases hv : pyValidDigits (c₀ :: r) = true
        · rcases validDigits_chars hv c hmem with hd | hu
          · exact Or.inr (Or.inl hd)
          · exact Or.inr (Or.inr (Or.inr (Or.inr hu)))
        · rw [if_neg hv] at h; cases h

theorem pyIntParse_no_slash {s : Str} {k : Int} (h : pyIntParse s = some k) :
    ∀ c ∈ s, c ≠ '/' := by
  intro c hc he
  subst he
  rcases pyIntParse_chars h '/' hc with h' | h' | h' | h' | h' <;>
    exact absurd h' (by decide)

theorem pyIntParse_ne_nil {s : Str} {k : Int} (h : pyIntParse s = some k) : s ≠ [] := by
  intro he
  rw [he] at h
  simp [pyIntParse, pyStripWs] at h

theorem noAdjSlash_cons_cons (c d : Char) (r : Str) :
    noAdjSlash (c :: d :: r) = true ↔ (¬ (c = '/' ∧ d = '/') ∧ noAdjSlash (d :: r) = true) := by
  simp only [noAdjSlash, Bool.and_eq_true, decide_eq_true_eq]

theorem noAdj_cons_append : ∀ (a : Str) (c₀ : Char) (l : Str), a ≠ [] →
    (∀ c ∈ a, c ≠ '/') → noAdjSlash l = true → noAdjSlash (c₀ :: (a ++ l)) = true
  | [], _, _, hne, _, _ => absurd rfl hne
  | [d], c₀, l, _, h, hl => by
    have hd : d ≠ '/' := h d (by simp)
    show noAdjSlash (c₀ :: d :: l) = true
    have h2 : noAdjSlash (d :: l) = true := by
      cases l with
      | nil => rfl
      | cons e l' =>
        exact (noAdjSlash_cons_cons d e l').mpr ⟨fun hc => hd hc.1, hl⟩
    exact (noAdjSlash_cons_cons c₀ d l).mpr ⟨fun hc => hd hc.2, h2⟩
  | d :: d' :: a', c₀, l, _, h, hl => by
    have hd : d ≠ '/' := h d (by simp)
    have ih := noAdj_cons_append (d' :: a') d l (by simp)
      (fun x hx => h x (by simp [hx])) hl
    show noAdjSlash (c₀ :: d :: ((d' :: a') ++ l)) = true
    exact (noAdjSlash_cons_cons c₀ d ((d' :: a') ++ l)).mpr ⟨fun hc => hd hc.2, ih⟩

theorem join_head (c₀ : Char) (a : Str) : ∀ rest : List Str,
    ∃ r : Str, pyJoin "/".data ((c₀ :: a) :: rest) = c₀ :: r
  | [] => ⟨a, rfl⟩
  | b :: rest' => ⟨a ++ "/".data ++ pyJoin "/".data (b :: rest'), rfl⟩

theorem join_last : ∀ segs : List Str, segs ≠ [] → (∀ seg ∈ segs, seg ≠ []) →
    ∃ (l : Str) (c : Char), pyJoin "/".data segs = l ++ [c] ∧ ∃ seg ∈ segs, c ∈ seg
  | [], h, _ => absurd rfl h
  | [a], _, h => by
    have ha : a ≠ [] := h a (by simp)
    refine ⟨a.dropLast, a.getLast ha, ?_, a, by simp, List.getLast_mem ha⟩
    show a = a.dropLast ++ [a.getLast ha]
    exact (List.dropLast_append_getLast ha).symm
  | a :: b :: rest, _, h => by
    obtain ⟨l, c, hjoin, seg, hsegmem, hcmem⟩ :=
      join_last (b :: rest) (by simp) (fun x hx => h x (by simp [hx]))
    refine ⟨a ++ "/".data ++ l, c, ?_, seg, List.mem_cons_of_mem a hsegmem, hcmem⟩
    rw [pyJoin_cons_cons, hjoin]
    simp [List.append_assoc]

theorem noAdj_slash_join : ∀ segs : List Str, segs ≠ [] →
    (∀ seg ∈ segs, seg ≠ [] ∧ ∀ c ∈ seg, c ≠ '/') →
    noAdjSlash ('/' :: pyJoin "/".data segs) = true
  | [], h, _ => absurd rfl h
  | [a], _, h => by
    show noAdjSlash ('/' :: a) = true
    exact noAdj_of_no_slash '/' a (h a (by simp)).2
  | a :: b :: rest, _, h => by
    have ih := noAdj_slash_join (b :: rest) (by simp) (fun x hx => h x (by simp [hx]))
    rw [pyJoin_cons_cons]
    rw [show (a ++ "/".data ++ pyJoin "/".data (b :: rest) : Str) =
      a ++ ('/' :: pyJoin "/".data (b :: rest)) by simp]
    exact noAdj_cons_append a '/' ('/' :: pyJoin "/".data (b :: rest))
      (h a (by simp)).1 (h a (by simp)).2 ih

/-- The normalize-strip-split pipeline of every string-path backend, applied
to a slash-joined multi-segment path. -/
theorem parts_segs (segs : List Str) (hne : segs ≠ [])
    (h : ∀ seg ∈ segs, seg ≠ [] ∧ ∀ c ∈ seg, c ≠ '/') :
    _normalize ('/' :: pyJoin "/".data segs) = '/' :: pyJoin "/".data segs ∧
    ('/' :: pyJoin "/".data segs : Str) ≠ "/".data ∧
    pySplit '/' (pyStripChar '/' ('/' :: pyJoin "/".data segs)) = segs := by
  obtain ⟨a, rest, rfl⟩ : ∃ a rest, segs = a :: rest := by
    cases segs with
    | nil => exact absurd rfl hne
    | cons a rest => exact ⟨a, rest, rfl⟩
  obtain ⟨c₀, a', rfl⟩ : ∃ c₀ a', a = c₀ :: a' := by
    cases a with
    | nil => exact absurd rfl (h [] (by simp)).1
    | cons c₀ a' => exact ⟨c₀, a', rfl⟩
  obtain ⟨r, hhead⟩ := join_head c₀ a' rest
  have hc₀ : c₀ ≠ '/' := (h (c₀ :: a') (by simp)).2 c₀ (by simp)
  obtain ⟨l, cl, hlast, seg, hsegmem, hclmem⟩ :=
    join_last ((c₀ :: a') :: rest) (by simp) (fun x hx => (h x hx).1)
  have hcl : cl ≠ '/' := (h seg hsegmem).2 cl hclmem
  have hnorm : _normalize ('/' :: pyJoin "/".data ((c₀ :: a') :: rest)) =
      '/' :: pyJoin "/".data ((c₀ :: a') :: rest) := by
    apply normalize_fixed
    · simp [pyStartswith, List.take]
    · exact noAdj_slash_join _ (by simp) h
    · right
      rw [show ('/' :: pyJoin "/".data ((c₀ :: a') :: rest) : Str) =
        ('/' :: l) ++ [cl] by rw [hlast, List.cons_append]]
      rw [show ("/".data : Str) = ['/'] from rfl, endswith_append_singleton]
      exact decide_eq_false hcl
  have hstrip : pyStripChar '/' ('/' :: pyJoin "/".data ((c₀ :: a') :: rest)) =
      pyJoin "/".data ((c₀ :: a') :: rest) := by
    unfold pyStripChar
    have h1 : (('/' : Char) :: pyJoin "/".data ((c₀ :: a') :: rest)).dropWhile (· = '/') =
        pyJoin "/".data ((c₀ :: a') :: rest) := by
      rw [List.dropWhile_cons, if_pos (by simp), hhead, List.dropWhile_cons,
        if_neg (by simp [hc₀]), ← hhead]
    have h2 : (pyJoin "/".data ((c₀ :: a') :: rest)).reverse.dropWhile (· = '/') =
        (pyJoin "/".data ((c₀ :: a') :: rest)).reverse := by
      rw [hlast]
      rw [show ((l ++ [cl]).reverse : Str) = cl :: l.reverse by simp]
      rw [List.dropWhile_cons, if_neg (by simp [hcl])]
    rw [h1, h2, List.reverse_reverse]
  refine ⟨hnorm, ?_, ?_⟩
  · intro hcon
    rw [show ("/".data : Str) = ['/'] from rfl] at hcon
    have hnil : pyJoin "/".data ((c₀ :: a') :: rest) = [] := by injection hcon
    rw [hhead] at hnil
    cases hnil
  · rw [hstrip]
    exact split_join _ (by simp) (fun x hx => (h x hx).2)

theorem slash2 (x y : Str) : ('/' :: x) ++ ('/' :: y) = '/' :: pyJoin "/".data [x, y] := by
  rw [pyJoin_cons_cons, show pyJoin "/".data [y] = y from rfl]
  simp

theorem slash3 (x y z : Str) :
    (('/' :: x) ++ ('/' :: y)) ++ ('/' :: z) = '/' :: pyJoin "/".data [x, y, z] := by
  rw [pyJoin_cons_cons, pyJoin_cons_cons, show pyJoin "/".data [z] = z from rfl]
  simp

/-- A name of the form row_ followed by a string int() accepts is a
non-empty, slash-free segment that `_parse_row_name` maps to the parsed
value, and it collides with neither synthetic file name. -/
theorem rowname_facts (s : Str) (k : Int) (hs : pyIntParse s = some k) :
    ("row_".data ++ s) ≠ [] ∧ (∀ c ∈ ("row_".data ++ s), c ≠ '/') ∧
    _parse_row_name ("row_".data ++ s) = some k ∧
    ("row_".data ++ s) ≠ "_headers.txt".data ∧
    ("row_".data ++ s) ≠ "_schema.sql".data := by
  refine ⟨by simp, ?_, ?_, ?_, ?_⟩
  · intro c hc
    rcases List.mem_append.mp hc with hc | hc
    · rw [show ("row_".data : Str) = ['r', 'o', 'w', '_'] from rfl] at hc
      simp only [List.mem_cons, List.not_mem_nil, or_false] at hc
      rcases hc with rfl | rfl | rfl | rfl <;> decide
    · exact pyIntParse_no_slash hs c hc
  · unfold _parse_row_name
    have hstart : pyStartswith "row_".data ("row_".data ++ s) = true := by
      simp only [pyStartswith, List.take_left, decide_eq_true_eq]
    rw [if_pos hstart]
    have hdrop : ("row_".data ++ s).drop 4 = s := List.drop_left "row_".data s
    rw [hdrop, hs]
  · intro h
    rw [show ("row_".data ++ s : Str) = 'r' :: ("ow_".data ++ s) from rfl,
      show ("_headers.txt".data : Str) = '_' :: "headers.txt".data from rfl] at h
    injection h with h1 _
    exact absurd h1 (by decide)
  · intro h
    rw [show ("row_".data ++ s : Str) = 'r' :: ("ow_".data ++ s) from rfl,
      show ("_schema.sql".data : Str) = '_' :: "schema.sql".data from rfl] at h
    injection h with h1 _
    exact absurd h1 (by decide)

/-- CsvBackend info, list and cell get on a row directory addressed by any
name `_parse_row_name` resolves to an in-range index. -/
theorem csv_row_ops (st : CsvState) (k : Nat) (name col : Str)
    (hne : name ≠ []) (hns : ∀ c ∈ name, c ≠ '/')
    (hpr : _parse_row_name name = some (k : Int))
    (hhdr : name ≠ "_headers.txt".data)
    (hk : k < st.rows.length)
    (hcolne : col ≠ []) (hcolns : ∀ c ∈ col, c ≠ '/')
    (hcolh : st.headers.contains col = true) :
    csv_info st ('/' :: name) = .ok { is_dir := true } ∧
    csv_list st ('/' :: name) = .ok st.headers ∧
    csv_get st (('/' :: name) ++ ('/' :: col)) =
      .ok (utf8Encode (csvCell (st.rows.getD k []) col)) := by
  obtain ⟨hnorm, hroot, hsplit⟩ := parts_one_seg name hne hns
  have hrange : (0 : Int) ≤ (k : Int) ∧ (k : Int) < (st.rows.length : Int) :=
    ⟨Int.natCast_nonneg k, by exact_mod_cast hk⟩
  refine ⟨?_, ?_, ?_⟩
  · unfold csv_info
    simp only [hnorm, hsplit, if_neg hroot, if_neg hhdr, hpr, if_pos hrange]
  · unfold csv_list
    simp only [hnorm, hsplit, if_neg hroot, hpr, if_pos hrange]
  · rw [slash2 name col]
    obtain ⟨hnorm2, hroot2, hsplit2⟩ := parts_segs [name, col] (by simp) (by
      intro seg hseg
      rcases List.mem_cons.mp hseg with rfl | hseg'
      · exact ⟨hne, hns⟩
      · rcases List.mem_cons.mp hseg' with rfl | hseg''
        · exact ⟨hcolne, hcolns⟩
        · cases hseg'')
    unfold csv_get
    simp only [hnorm2, hsplit2, hpr, if_pos hrange, if_pos hcolh]
    simp

/-- SqliteBackend info, list and cell get on a row directory addressed by
any name `_parse_row_name` resolves to an in-range index. -/
theorem sq_row_ops (st : SqliteState) (table : Str) (t : SqTable)
    (htab : sqTable st table = some t)
    (htne : table ≠ []) (htns : ∀ c ∈ table, c ≠ '/')
    (k : Nat) (name col : Str)
    (hne : name ≠ []) (hns : ∀ c ∈ name, c ≠ '/')
    (hpr : _parse_row_name name = some (k : Int))
    (hsch : name ≠ "_schema.sql".data)
    (hk : k < t.rows.length)
    (hcolne : col ≠ []) (hcolns : ∀ c ∈ col, c ≠ '/') :
    sq_info st (('/' :: table) ++ ('/' :: name)) = .ok { is_dir := true } ∧
    sq_list st (('/' :: table) ++ ('/' :: name)) = .ok t.columns ∧
    sq_get st ((('/' :: table) ++ ('/' :: name)) ++ ('/' :: col)) = sq_get_cell t k col := by
  have hsegs2 : ∀ seg ∈ [table, name], seg ≠ [] ∧ ∀ c ∈ seg, c ≠ '/' := by
    intro seg hseg
    rcases List.mem_cons.mp hseg with rfl | hseg'
    · exact ⟨htne, htns⟩
    · rcases List.mem_cons.mp hseg' with rfl | hseg''
      · exact ⟨hne, hns⟩
      · cases hseg''
  have hsegs3 : ∀ seg ∈ [table, name, col], seg ≠ [] ∧ ∀ c ∈ seg, c ≠ '/' := by
    intro seg hseg
    rcases List.mem_cons.mp hseg with rfl | hseg'
    · exact ⟨htne, htns⟩
    · rcases List.mem_cons.mp hseg' with rfl | hseg''
      · exact ⟨hne, hns⟩
      · rcases List.mem_cons.mp hseg'' with rfl | hseg3
        · exact ⟨hcolne, hcolns⟩
        · cases hseg3
  obtain ⟨hnorm2, hroot2, hsplit2⟩ := parts_segs [table, name] (by simp) hsegs2
  obtain ⟨hnorm3, hroot3, hsplit3⟩ := parts_segs [table, name, col] (by simp) hsegs3
  refine ⟨?_, ?_, ?_⟩
  · rw [slash2 table name]
    unfold sq_info
    simp only [hnorm2, hsplit2, if_neg hroot2, htab, if_neg hsch, hpr]
    rw [if_pos (show (k : Int) < (t.rows.length : Int) by exact_mod_cast hk)]
  · rw [slash2 table name]
    unfold sq_list
    simp only [hnorm2, hsplit2, if_neg hroot2, htab, hpr]
    rw [if_neg (show ¬ ((k : Int) ≥ (t.rows.length : Int)) from
      not_le.mpr (by exact_mod_cast hk))]
  · rw [slash3 table name col]
    unfold sq_get
    simp only [hnorm3, hsplit3, htab, hpr, if_pos (Int.natCast_nonneg k)]
    simp

/-- C8.  In the CSV and SQLite backends a row directory is reachable under
every alias row_ plus a string s that Python int() evaluates to the in-range
index k: info and list on the alias path, and get on an alias cell path,
return exactly what they return on the canonical name (the zero-padded
row_0001 form for CSV, the unpadded row_1 form for SQLite), the CSV results
being the row directory, the header list and the row's cell bytes, and the
SQLite cell get being the `_get_cell` fetch of row k; and the alias name
differs from the canonical CSV name exactly when s differs from the padded
digit string, so one row is addressable by several distinct paths. -/
theorem c8_row_alias_addressing
    (st : CsvState) (sq : SqliteState) (table : Str) (t : SqTable)
    (htab : sqTable sq table = some t)
    (htne : table ≠ []) (htns : ∀ c ∈ table, c ≠ '/')
    (k : Nat) (s : Str) (hs : pyIntParse s = some (k : Int))
    (hkc : k < st.rows.length) (hks : k < t.rows.length)
    (col : Str) (hcolne : col ≠ []) (hcolns : ∀ c ∈ col, c ≠ '/')
    (hcolh : st.headers.contains col = true)
    (scol : Str) (hscolne : scol ≠ []) (hscolns : ∀ c ∈ scol, c ≠ '/') :
    (csv_info st ('/' :: ("row_".data ++ s)) =
       csv_info st ('/' :: csv_row_dirname st k) ∧
     csv_info st ('/' :: ("row_".data ++ s)) = .ok { is_dir := true }) ∧
    (csv_list st ('/' :: ("row_".data ++ s)) =
       csv_list st ('/' :: csv_row_dirname st k) ∧
     csv_list st ('/' :: ("row_".data ++ s)) = .ok st.headers) ∧
    (csv_get st (('/' :: ("row_".data ++ s)) ++ ('/' :: col)) =
       csv_get st (('/' :: csv_row_dirname st k) ++ ('/' :: col)) ∧
     csv_get st (('/' :: ("row_".data ++ s)) ++ ('/' :: col)) =
       .ok (utf8Encode (csvCell (st.rows.getD k []) col))) ∧
    (sq_info sq (('/' :: table) ++ ('/' :: ("row_".data ++ s))) =
       sq_info sq (('/' :: table) ++ ('/' :: ("row_".data ++ natRepr k))) ∧
     sq_info sq (('/' :: table) ++ ('/' :: ("row_".data ++ s))) = .ok { is_dir := true }) ∧
    (sq_list sq (('/' :: table) ++ ('/' :: ("row_".data ++ s))) =
       sq_list sq (('/' :: table) ++ ('/' :: ("row_".data ++ natRepr k))) ∧
     sq_list sq (('/' :: table) ++ ('/' :: ("row_".data ++ s))) = .ok t.columns) ∧
    (sq_get sq ((('/' :: table) ++ ('/' :: ("row_".data ++ s))) ++ ('/' :: scol)) =
       sq_get sq ((('/' :: table) ++ ('/' :: ("row_".data ++ natRepr k))) ++ ('/' :: scol)) ∧
     sq_get sq ((('/' :: table) ++ ('/' :: ("row_".data ++ s))) ++ ('/' :: scol)) =
       sq_get_cell t k scol) ∧
    ("row_".data ++ s ≠ csv_row_dirname st k ↔ s ≠ padZeros (csvWidth st) k) := by
  obtain ⟨f1, f2, f3, f4, f5⟩ := rowname_facts s (k : Int) hs
  have hcanparse : pyIntParse (padZeros (csvWidth st) k) = some (k : Int) := by
    simp only [padZeros]
    exact pyIntParse_pad _ k
  obtain ⟨g1, g2, g3, g4, _⟩ := rowname_facts (padZeros (csvWidth st) k) (k : Int) hcanparse
  obtain ⟨n1, n2, n3, _, n5⟩ := rowname_facts (natRepr k) (k : Int) (pyIntParse_natRepr k)
  obtain ⟨ci, cls, cg⟩ := csv_row_ops st k ("row_".data ++ s) col
    f1 f2 f3 f4 hkc hcolne hcolns hcolh
  obtain ⟨ci', cls', cg'⟩ := csv_row_ops st k ("row_".data ++ padZeros (csvWidth st) k) col
    g1 g2 g3 g4 hkc hcolne hcolns hcolh
  obtain ⟨si, sl, sg⟩ := sq_row_ops sq table t htab htne htns k ("row_".data ++ s) scol
    f1 f2 f3 f5 hks hscolne hscolns
  obtain ⟨si', sl', sg'⟩ := sq_row_ops sq table t htab htne htns k
    ("row_".data ++ natRepr k) scol n1 n2 n3 n5 hks hscolne hscolns
  refine ⟨⟨ci.trans ci'.symm, ci⟩, ⟨cls.trans cls'.symm, cls⟩, ⟨cg.trans cg'.symm, cg⟩,
    ⟨si.trans si'.symm, si⟩, ⟨sl.trans sl'.symm, sl⟩, ⟨sg.trans sg'.symm, sg⟩, ?_⟩
  constructor
  · intro hne heq
    exact hne (by rw [heq]; rfl)
  · intro hne heq
    have : s = padZeros (csvWidth st) k := List.append_cancel_left heq
    exact hne this

/-- C8 witness: on the two-row CSV fixture the alias row_01 resolves like the
canonical row_0001 while being a different name, and on the eleven-row SQLite
fixture the alias row_+1 lists like the canonical row_1. -/
theorem c8_witness :
    (csv_info csvSample ('/' :: ("row_".data ++ "01".data)) =
       csv_info csvSample ('/' :: csv_row_dirname csvSample 1) ∧
     csv_info csvSample ('/' :: ("row_".data ++ "01".data)) = .ok { is_dir := true }) ∧
    "row_".data ++ "01".data ≠ csv_row_dirname csvSample 1 ∧
    (sq_list sqSample (('/' :: "users".data) ++ ('/' :: ("row_".data ++ "+1".data))) =
       sq_list sqSample (('/' :: "users".data) ++ ('/' :: ("row_".data ++ natRepr 1)))) := by
  have h1 := c8_row_alias_addressing csvSample sqSample "users".data
    { schema := "CREATE TABLE users (n TEXT)".data,
      columns := ["n".data],
      rows := (List.range 11).map (fun i => [("n".data, some (natRepr i))]) }
    rfl (by decide) (by decide) 1 "01".data (by decide) (by decide) (by decide)
    "name".data (by decide) (by decide) (by decide) "n".data (by decide) (by decide)
  have h2 := c8_row_alias_addressing csvSample sqSample "users".data
    { schema := "CREATE TABLE users (n TEXT)".data,
      columns := ["n".data],
      rows := (List.range 11).map (fun i => [("n".data, some (natRepr i))]) }
    rfl (by decide) (by decide) 1 "+1".data (by decide) (by decide) (by decide)
    "name".data (by decide) (by decide) (by decide) "n".data (by decide) (by decide)
  exact ⟨h1.1, h1.2.2.2.2.2.2.mpr (by decide), h2.2.2.2.2.1.1⟩

/-! ## Traversal lemmas for the tree-modelled backend -/

theorem mapM_ok_of_pointwise {α β : Type} {f : α → Except PyErr β} (g : α → β) :
    ∀ xs : List α, (∀ x ∈ xs, f x = .ok (g x)) → xs.mapM f = .ok (xs.map g)
  | [], _ => rfl
  | x :: xs, h => by
    rw [List.mapM_cons, h x (by simp),
      mapM_ok_of_pointwise g xs (fun y hy => h y (by simp [hy]))]
    rfl

theorem bind_ok_of_mapM {α β γ : Type} {f : α → Except PyErr β} (g : α → β)
    {xs : List α} {k : List β → Except PyErr γ} {out : Except PyErr γ}
    (h : ∀ x ∈ xs, f x = .ok (g x)) (hk : k (xs.map g) = out) :
    (xs.mapM f >>= k) = out := by
  rw [mapM_ok_of_pointwise g xs h, except_bind_ok]
  exact hk

theorem bLookup_head (name : Str) (child : BNode) (rest : List (Str × BNode)) :
    bLookup ((name, child) :: rest) name = some child := by
  simp [bLookup, List.find?_cons_of_pos]

theorem bLookup_cons_ne {n name : Str} (hne : n ≠ name) (child : BNode)
    (rest : List (Str × BNode)) :
    bLookup ((name, child) :: rest) n = bLookup rest n := by
  unfold bLookup
  rw [List.find?_cons_of_neg]
  simp [Ne.symm hne]

theorem bLookup_of_nodup : ∀ (children : List (Str × BNode)),
    (children.map Prod.fst).Nodup → ∀ e ∈ children, bLookup children e.1 = some e.2
  | [], _, e, he => absurd he (by simp)
  | (name, child) :: rest, hnd, e, he => by
    rw [List.map_cons] at hnd
    rcases List.mem_cons.mp he with rfl | he'
    · exact bLookup_head name child rest
    · have hnd' := List.nodup_cons.mp hnd
      have hne : e.1 ≠ name := by
        intro hc
        apply hnd'.1
        rw [← hc]
        exact List.mem_map.mpr ⟨e, he', rfl⟩
      rw [bLookup_cons_ne hne]
      exact bLookup_of_nodup rest hnd'.2 e he'

theorem bLookup_mem {children : List (Str × BNode)} {name : Str} {child : BNode}
    (h : bLookup children name = some child) : (name, child) ∈ children := by
  unfold bLookup at h
  cases hf : children.find? (fun c => c.1 = name) with
  | none => rw [hf] at h; cases h
  | some e =>
    rw [hf] at h
    have hmem := List.mem_of_find?_eq_some hf
    have hpred := List.find?_some hf
    simp only [decide_eq_true_eq] at hpred
    obtain ⟨a, b⟩ := e
    have h' : some b = some child := h
    obtain rfl := Option.some.inj h'
    have ha : a = name := hpred
    rw [← ha]
    exact hmem

theorem map_bLookup_entries {β : Type} (G : Str → BNode → β) (dflt : Str → β) :
    ∀ children : List (Str × BNode), (children.map Prod.fst).Nodup →
    (children.map Prod.fst).map
      (fun name => ((bLookup children name).map (G name)).getD (dflt name)) =
    children.map (fun e => G e.1 e.2)
  | [], _ => rfl
  | (name, child) :: rest, hnd => by
    rw [List.map_cons] at hnd
    have hnd' := List.nodup_cons.mp hnd
    rw [List.map_cons, List.map_cons, List.map_cons]
    congr 1
    · rw [bLookup_head]
      rfl
    · have hstep : ∀ n ∈ rest.map Prod.fst,
          ((bLookup ((name, child) :: rest) n).map (G n)).getD (dflt n) =
          ((bLookup rest n).map (G n)).getD (dflt n) := by
        intro n hn
        have hne : n ≠ name := by
          intro hc
          apply hnd'.1
          rw [← hc]
          exact hn
        rw [bLookup_cons_ne hne child rest]
      rw [List.map_congr_left hstep]
      exact map_bLookup_entries G dflt rest hnd'.2

theorem pfLevel1_flatten (props : Option (List Str)) (path : List Str) :
    ∀ children : List (Str × BNode),
    (children.map (fun e => pfLevel1 props path [(e.1, e.2)])).flatten =
      pfLevel1 props path children
  | [] => rfl
  | (name, child) :: rest => by
    rw [List.map_cons, List.flatten_cons, pfLevel1_flatten props path rest]
    cases child <;> simp [pfLevel1]

theorem pfDeep_flatten (props : Option (List Str)) (path : List Str) :
    ∀ children : List (Str × BNode),
    (children.map (fun e => pfDeep props path [(e.1, e.2)])).flatten =
      pfDeep props path children
  | [] => by simp [pfDeep]
  | (name, child) :: rest => by
    rw [List.map_cons, List.flatten_cons, pfDeep_flatten props path rest]
    cases child <;> simp [pfDeep]

theorem resolveB_append : ∀ (p : List Str) (n : BNode) (q : List Str),
    resolveB n (p ++ q) = resolveB n p >>= fun m => resolveB m q
  | [], n, q => rfl
  | seg :: p', n, q => by
    cases n with
    | dir children =>
      cases hbl : bLookup children seg with
      | some child =>
        simp only [List.cons_append, resolveB, hbl]
        exact resolveB_append p' child q
      | none => simp [resolveB, hbl, except_bind_err]
    | file data ct => simp [resolveB, except_bind_err]
    | exc e => simp [resolveB, except_bind_err]

theorem treeList_at (root : BNode) (path : List Str) (children : List (Str × BNode))
    (hres : resolveB root path = .ok (.dir children)) :
    treeList root path = .ok (children.map Prod.fst) := by
  unfold treeList
  rw [hres]
  rfl

theorem treeInfo_dir (root : BNode) (path : List Str) (children : List (Str × BNode))
    (hres : resolveB root path = .ok (.dir children)) :
    treeInfo root path = .ok { is_dir := true } := by
  unfold treeInfo
  rw [hres]
  rfl

theorem treeInfo_child (root : BNode) (path : List Str) (children : List (Str × BNode))
    (name : Str) (child : BNode)
    (hres : resolveB root path = .ok (.dir children))
    (hbl : bLookup children name = some child) :
    treeInfo root (path ++ [name]) = treeInfo child [] := by
  unfold treeInfo
  rw [resolveB_append path root [name], hres, except_bind_ok]
  have hr : resolveB (.dir children) [name] = .ok child := by simp [resolveB, hbl]
  rw [hr]
  rfl

theorem treeInfo_child_none (root : BNode) (path : List Str) (children : List (Str × BNode))
    (name : Str)
    (hres : resolveB root path = .ok (.dir children))
    (hbl : bLookup children name = none) :
    treeInfo root (path ++ [name]) = .error (.notFoundError "Not found".data) := by
  unfold treeInfo
  rw [resolveB_append path root [name], hres, except_bind_ok]
  have hr : resolveB (.dir children) [name] = .error (.notFoundError "Not found".data) := by
    simp [resolveB, hbl]
  rw [hr]
  rfl

theorem wfB_dir_parts {children : List (Str × BNode)} (h : wfB (.dir children) = true) :
    (children.map Prod.fst).Nodup ∧ wfB.wfChildren children = true := by
  simp only [wfB, Bool.and_eq_true, decide_eq_true_eq] at h
  exact h

theorem wfChildren_mem : ∀ {cs : List (Str × BNode)} {e : Str × BNode},
    wfB.wfChildren cs = true → e ∈ cs → wfB e.2 = true
  | [], e, _, he => absurd he (by simp)
  | c :: rest, e, h, he => by
    simp only [wfB.wfChildren, Bool.and_eq_true, decide_eq_true_eq] at h
    rcases List.mem_cons.mp he with rfl | he'
    · exact h.1
    · exact wfChildren_mem h.2 he'

theorem heightB_child_le : ∀ (cs : List (Str × BNode)) (e : Str × BNode), e ∈ cs →
    heightB e.2 ≤ heightB.childrenHeight cs
  | [], e, he => absurd he (by simp)
  | c :: rest, e, he => by
    rcases List.mem_cons.mp he with rfl | he'
    · simp only [heightB.childrenHeight]
      exact le_max_left _ _
    · simp only [heightB.childrenHeight]
      exact le_trans (heightB_child_le rest e he') (le_max_right _ _)

/-- With fuel at least the subtree height, `_propfind_recurse` over the tree
backend produces exactly the depth-first responses of the spec-side view. -/
theorem propfind_recurse_tree (props : Option (List Str)) :
    ∀ (fuel : Nat) (root : BNode) (path : List Str) (children : List (Str × BNode)),
    resolveB root path = .ok (.dir children) →
    wfB (.dir children) = true →
    heightB (.dir children) ≤ fuel →
    _propfind_recurse (treeIface root) fuel path props = .ok (pfDeep props path children) := by
  intro fuel
  induction fuel with
  | zero =>
    intro root path children _ _ hh
    exfalso
    simp [heightB] at hh
  | succ fuel ih =>
    intro root path children hres hwf hh
    obtain ⟨hnodup, hwfc⟩ := wfB_dir_parts hwf
    unfold _propfind_recurse
    simp only [treeIface, treeList_at root path children hres]
    rw [pure_bind]
    refine bind_ok_of_mapM (fun name => ((bLookup children name).map
      (fun child => pfDeep props path [(name, child)])).getD []) ?_ ?_
    · intro name _
      cases hbl : bLookup children name with
      | none =>
        have hti2 : treeInfo root (path ++ [name]) =
            Except.error (PyErr.notFoundError "Not found".data) :=
          treeInfo_child_none root path children name hres hbl
        simp only [hti2, hbl, Option.map_none, Option.getD_none]
        rfl
      | some child =>
        cases child with
        | exc e =>
          cases e with
          | notFound msg =>
            have hti2 : treeInfo root (path ++ [name]) =
                Except.error (PyErr.notFoundError msg) :=
              treeInfo_child root path children name _ hres hbl
            simp only [hti2, hbl]
            show Except.ok ([] : List RespElem) =
              Except.ok (pfDeep props path [(name, BNode.exc (BackendExc.notFound msg))])
            simp [pfDeep]
          | backend msg =>
            have hti2 : treeInfo root (path ++ [name]) =
                Except.error (PyErr.backendError msg) :=
              treeInfo_child root path children name _ hres hbl
            simp only [hti2, hbl]
            show Except.ok ([] : List RespElem) =
              Except.ok (pfDeep props path [(name, BNode.exc (BackendExc.backend msg))])
            simp [pfDeep]
        | file data ct =>
          have hti2 : treeInfo root (path ++ [name]) =
              Except.ok { is_dir := false, size := data.length, content_type := ct } :=
            treeInfo_child root path children name _ hres hbl
          simp [hti2, hbl, pfDeep]
          rfl
        | dir cs =>
          have hwfchild : wfB (.dir cs) = true :=
            wfChildren_mem hwfc (bLookup_mem hbl)
          have hh' : heightB (.dir cs) ≤ fuel := by
            have h1 : heightB (.dir cs) ≤ heightB.childrenHeight children :=
              heightB_child_le children (name, .dir cs) (bLookup_mem hbl)
            have h2 : heightB (.dir children) = 1 + heightB.childrenHeight children := by
              simp [heightB]
            omega
          have hresc : resolveB root (path ++ [name]) = .ok (.dir cs) := by
            rw [resolveB_append path root [name], hres, except_bind_ok]
            simp [resolveB, hbl]
          have hrec := ih root (path ++ [name]) cs hresc hwfchild hh'
          have hti2 : treeInfo root (path ++ [name]) = Except.ok { is_dir := true } :=
            treeInfo_child root path children name _ hres hbl
          have hrec2 : _propfind_recurse
              { info := treeInfo root, list := treeList root, get := treeGet root }
              fuel (path ++ [name]) props =
              Except.ok (pfDeep props (path ++ [name]) cs) := hrec
          simp [hti2, hbl, pfDeep]
          rw [hrec2]
          rfl
    · have hmap : (children.map Prod.fst).map (fun name => ((bLookup children name).map
          (fun child => pfDeep props path [(name, child)])).getD []) =
          children.map (fun e => pfDeep props path [(e.1, e.2)]) :=
        map_bLookup_entries (fun name child => pfDeep props path [(name, child)])
          (fun _ => []) children hnodup
      rw [hmap]
      rw [pfDeep_flatten]

/-- C10.  For a PROPFIND on a directory, only the exact Depth header 0
limits the multistatus to the target alone and only the exact value infinity
descends recursively; an absent header behaves as the literal 1, and every
other value (1, 2, garbage) yields the target plus its immediate
children. -/
theorem c10_depth_trichotomy
    (root : BNode) (fromstring : Bytes → Except PyErr XNode) (body : Bytes)
    (props : Option (List Str))
    (hbody : _parse_propfind_body fromstring body = .ok props)
    (rawUrl : Str) (path : List Str) (fmt : Option DumpFormat)
    (hurl : _parse_request_path rawUrl = (path, fmt))
    (children : List (Str × BNode))
    (hres : resolveB root path = .ok (.dir children))
    (hwf : wfB (.dir children) = true)
    (hh : heightB (.dir children) ≤ 1000) :
    do_PROPFIND (treeIface root) fromstring (some "0".data) body rawUrl =
      .ok (.multistatus
        [_build_response_element (_to_href path true) { is_dir := true } props]) ∧
    (∀ d : Str, d ≠ "0".data → d ≠ "infinity".data →
      do_PROPFIND (treeIface root) fromstring (some d) body rawUrl =
        .ok (.multistatus
          (_build_response_element (_to_href path true) { is_dir := true } props
            :: pfLevel1 props path children))) ∧
    do_PROPFIND (treeIface root) fromstring none body rawUrl =
      do_PROPFIND (treeIface root) fromstring (some "1".data) body rawUrl ∧
    do_PROPFIND (treeIface root) fromstring (some "infinity".data) body rawUrl =
      .ok (.multistatus
        (_build_response_element (_to_href path true) { is_dir := true } props
          :: pfDeep props path children)) := by
  have hinfo : treeInfo root path = Except.ok { is_dir := true } :=
    treeInfo_dir root path children hres
  have hlist : treeList root path = Except.ok (children.map Prod.fst) :=
    treeList_at root path children hres
  obtain ⟨hnodup, hwfc⟩ := wfB_dir_parts hwf
  refine ⟨?_, ?_, rfl, ?_⟩
  · unfold do_PROPFIND
    rw [hurl]
    simp only [hbody, except_bind_ok, Option.getD_some, treeIface, hinfo, _try]
    rw [if_neg (fun hc => hc.2 rfl)]
  · intro d hd0 hdi
    unfold do_PROPFIND
    rw [hurl]
    simp only [hbody, except_bind_ok, Option.getD_some, treeIface, hinfo, _try]
    rw [if_pos ⟨trivial, hd0⟩]
    simp only [hlist, _try, except_bind_ok]
    refine bind_ok_of_mapM (fun name => ((bLookup children name).map
      (fun child => pfLevel1 props path [(name, child)])).getD []) ?_ ?_
    · intro name _
      cases hbl : bLookup children name with
      | none =>
        have hti2 : treeInfo root (path ++ [name]) =
            Except.error (PyErr.notFoundError "Not found".data) :=
          treeInfo_child_none root path children name hres hbl
        simp only [hti2, hbl, Option.map_none, Option.getD_none]
        rfl
      | some child =>
        cases child with
        | exc e =>
          cases e with
          | notFound msg =>
            have hti2 : treeInfo root (path ++ [name]) =
                Except.error (PyErr.notFoundError msg) :=
              treeInfo_child root path children name _ hres hbl
            simp only [hti2, hbl]
            show Except.ok ([] : List RespElem) =
              Except.ok (pfLevel1 props path [(name, BNode.exc (BackendExc.notFound msg))])
            simp [pfLevel1]
          | backend msg =>
            have hti2 : treeInfo root (path ++ [name]) =
                Except.error (PyErr.backendError msg) :=
              treeInfo_child root path children name _ hres hbl
            simp only [hti2, hbl]
            show Except.ok ([] : List RespElem) =
              Except.ok (pfLevel1 props path [(name, BNode.exc (BackendExc.backend msg))])
            simp [pfLevel1]
        | file data ct =>
          have hti2 : treeInfo root (path ++ [name]) =
              Except.ok { is_dir := false, size := data.length, content_type := ct } :=
            treeInfo_child root path children name _ hres hbl
          simp [hti2, hbl, pfLevel1]
          rfl
        | dir cs =>
          have hti2 : treeInfo root (path ++ [name]) = Except.ok { is_dir := true } :=
            treeInfo_child root path children name _ hres hbl
          simp only [hti2, hbl]
          rw [if_neg (fun hc => hdi hc.1)]
          show Except.ok [_build_response_element (_to_href (path ++ [name]) true)
              { is_dir := true } props] =
            Except.ok (pfLevel1 props path [(name, BNode.dir cs)])
          simp [pfLevel1]
    · have hmap : (children.map Prod.fst).map (fun name => ((bLookup children name).map
          (fun child => pfLevel1 props path [(name, child)])).getD []) =
          children.map (fun e => pfLevel1 props path [(e.1, e.2)]) :=
        map_bLookup_entries (fun name child => pfLevel1 props path [(name, child)])
          (fun _ => []) children hnodup
      rw [hmap, pfLevel1_flatten]
  · unfold do_PROPFIND
    rw [hurl]
    simp only [hbody, except_bind_ok, Option.getD_some, treeIface, hinfo, _try]
    rw [if_pos ⟨trivial, by decide⟩]
    simp only [hlist, _try, except_bind_ok]
    refine bind_ok_of_mapM (fun name => ((bLookup children name).map
      (fun child => pfDeep props path [(name, child)])).getD []) ?_ ?_
    · intro name _
      cases hbl : bLookup children name with
      | none =>
        have hti2 : treeInfo root (path ++ [name]) =
            Except.error (PyErr.notFoundError "Not found".data) :=
          treeInfo_child_none root path children name hres hbl
        simp only [hti2, hbl, Option.map_none, Option.getD_none]
        rfl
      | some child =>
        cases child with
        | exc e =>
          cases e with
          | notFound msg =>
            have hti2 : treeInfo root (path ++ [name]) =
                Except.error (PyErr.notFoundError msg) :=
              treeInfo_child root path children name _ hres hbl
            simp only [hti2, hbl]
            show Except.ok ([] : List RespElem) =
              Except.ok (pfDeep props path [(name, BNode.exc (BackendExc.notFound msg))])
            simp [pfDeep]
          | backend msg =>
            have hti2 : treeInfo root (path ++ [name]) =
                Except.error (PyErr.backendError msg) :=
              treeInfo_child root path children name _ hres hbl
            simp only [hti2, hbl]
            show Except.ok ([] : List RespElem) =
              Except.ok (pfDeep props path [(name, BNode.exc (BackendExc.backend msg))])
            simp [pfDeep]
        | file data ct =>
          have hti2 : treeInfo root (path ++ [name]) =
              Except.ok { is_dir := false, size := data.length, content_type := ct } :=
            treeInfo_child root path children name _ hres hbl
          simp [hti2, hbl, pfDeep]
          rfl
        | dir cs =>
          have hwfchild : wfB (.dir cs) = true :=
            wfChildren_mem hwfc (bLookup_mem hbl)
          have hh' : heightB (.dir cs) ≤ 1000 := by
            have h1 : heightB (.dir cs) ≤ heightB.childrenHeight children :=
              heightB_child_le children (name, .dir cs) (bLookup_mem hbl)
            have h2 : heightB (.dir children) = 1 + heightB.childrenHeight children := by
              simp [heightB]
            omega
          have hresc : resolveB root (path ++ [name]) = .ok (.dir cs) := by
            rw [resolveB_append path root [name], hres, except_bind_ok]
            simp [resolveB, hbl]
          have hrec := propfind_recurse_tree props 1000 root (path ++ [name]) cs
            hresc hwfchild hh'
          have hrec2 : _propfind_recurse
              { info := treeInfo root, list := treeList root, get := treeGet root }
              1000 (path ++ [name]) props =
              Except.ok (pfDeep props (path ++ [name]) cs) := hrec
          have hti2 : treeInfo root (path ++ [name]) = Except.ok { is_dir := true } :=
            treeInfo_child root path children name _ hres hbl
          simp [hti2, hbl, pfDeep]
          rw [hrec2]
          rfl
    · have hmap : (children.map Prod.fst).map (fun name => ((bLookup children name).map
          (fun child => pfDeep props path [(name, child)])).getD []) =
          children.map (fun e => pfDeep props path [(e.1, e.2)]) :=
        map_bLookup_entries (fun name child => pfDeep props path [(name, child)])
          (fun _ => []) children hnodup
      rw [hmap, pfDeep_flatten]

/-- C10 witness: the trichotomy applied to the tree fixture with a blank
body, at depths 0, 2 and infinity. -/
theorem c10_witness :
    do_PROPFIND (treeIface treeSample) (fun _ => .error .parseError)
        (some "0".data) [] "/".data =
      .ok (.multistatus
        [_build_response_element (_to_href [] true) { is_dir := true } none]) ∧
    do_PROPFIND (treeIface treeSample) (fun _ => .error .parseError)
        (some "2".data) [] "/".data =
      .ok (.multistatus
        (_build_response_element (_to_href [] true) { is_dir := true } none
          :: pfLevel1 none []
            [("hello.txt".data, .file (utf8Encode "Hello, world!".data) "text/plain".data),
             ("docs".data,
              .dir [("guide.txt".data, .file (utf8Encode "A guide".data) "text/plain".data)])])) ∧
    do_PROPFIND (treeIface treeSample) (fun _ => .error .parseError)
        (some "infinity".data) [] "/".data =
      .ok (.multistatus
        (_build_response_element (_to_href [] true) { is_dir := true } none
          :: pfDeep none []
            [("hello.txt".data, .file (utf8Encode "Hello, world!".data) "text/plain".data),
             ("docs".data,
              .dir [("guide.txt".data, .file (utf8Encode "A guide".data) "text/plain".data)])])) := by
  have h := c10_depth_trichotomy treeSample (fun _ => .error .parseError) [] none rfl
    "/".data [] none rfl
    [("hello.txt".data, .file (utf8Encode "Hello, world!".data) "text/plain".data),
     ("docs".data, .dir [("guide.txt".data, .file (utf8Encode "A guide".data) "text/plain".data)])]
    rfl (by decide) (by decide)
  exact ⟨h.1, h.2.1 "2".data (by decide) (by decide), h.2.2.2⟩

/-! ## Dump traversal lemmas -/

theorem bind_error_of_mapM {α β γ : Type} {f : α → Except PyErr β} (g : α → β)
    (e : PyErr) (pre : List α) (x : α) (post : List α)
    {k : List β → Except PyErr γ} {out : Except PyErr γ}
    (hpre : ∀ y ∈ pre, f y = .ok (g y)) (hx : f x = .error e)
    (hout : Except.error e = out) :
    ((pre ++ x :: post).mapM f >>= k) = out := by
  have hmain : ∀ pre : List α, (∀ y ∈ pre, f y = .ok (g y)) →
      (pre ++ x :: post).mapM f = .error e := by
    intro pre
    induction pre with
    | nil =>
      intro _
      rw [List.nil_append, List.mapM_cons, hx]
      rfl
    | cons y pre' ih =>
      intro hp
      rw [List.cons_append, List.mapM_cons, hp y (by simp), except_bind_ok,
        ih (fun z hz => hp z (by simp [hz]))]
      rfl
  rw [hmain pre hpre, except_bind_err]
  exact hout

theorem resolveB_child (root : BNode) (path : List Str) (children : List (Str × BNode))
    (name : Str) (child : BNode)
    (hres : resolveB root path = .ok (.dir children))
    (hbl : bLookup children name = some child) :
    resolveB root (path ++ [name]) = .ok child := by
  rw [resolveB_append path root [name], hres, except_bind_ok]
  simp [resolveB, hbl]

theorem treeInfo_at_file (root : BNode) (path : List Str) (data : Bytes) (ct : Str)
    (hres : resolveB root path = .ok (.file data ct)) :
    treeInfo root path = .ok { is_dir := false, size := data.length, content_type := ct } := by
  unfold treeInfo
  rw [hres]
  rfl

theorem treeInfo_at_exc (root : BNode) (path : List Str) (e : BackendExc)
    (hres : resolveB root path = .ok (.exc e)) :
    treeInfo root path = .error e.toPyErr := by
  unfold treeInfo
  rw [hres]
  rfl

theorem treeGet_at (root : BNode) (path : List Str) (data : Bytes) (ct : Str)
    (hres : resolveB root path = .ok (.file data ct)) :
    treeGet root path = .ok data := by
  unfold treeGet
  rw [hres]
  rfl

theorem childrenExc_none_mem : ∀ {children : List (Str × BNode)},
    firstExcB.childrenExc children = none → ∀ c ∈ children, firstExcB c.2 = none
  | [], _, c, hc => absurd hc (by simp)
  | c₀ :: rest, h, c, hc => by
    rw [firstExcB.childrenExc] at h
    cases hf : firstExcB c₀.2 with
    | some e => rw [hf] at h; cases h
    | none =>
      rw [hf] at h
      rcases List.mem_cons.mp hc with rfl | hc'
      · exact hf
      · exact childrenExc_none_mem h c hc'

theorem childrenExc_split : ∀ {children : List (Str × BNode)} {e : BackendExc},
    firstExcB.childrenExc children = some e →
    ∃ pre name child post, children = pre ++ (name, child) :: post ∧
      (∀ c ∈ pre, firstExcB c.2 = none) ∧ firstExcB child = some e
  | [], e, h => by rw [firstExcB.childrenExc] at h; cases h
  | (name₀, child₀) :: rest, e, h => by
    rw [firstExcB.childrenExc] at h
    cases hf : firstExcB child₀ with
    | some e' =>
      rw [hf] at h
      obtain rfl := Option.some.inj h
      exact ⟨[], name₀, child₀, rest, by simp, by simp, hf⟩
    | none =>
      rw [hf] at h
      obtain ⟨pre, name, child, post, hsplit, hpre, hchild⟩ := childrenExc_split h
      refine ⟨(name₀, child₀) :: pre, name, child, post, by rw [hsplit]; rfl, ?_, hchild⟩
      intro c hc
      rcases List.mem_cons.mp hc with rfl | hc'
      · exact hf
      · exact hpre c hc'

theorem fullJsonFields_map : ∀ cs : List (Str × BNode),
    fullJsonB.fullJsonFields cs = cs.map (fun e => (e.1, fullJsonB e.2))
  | [] => by simp [fullJsonB.fullJsonFields]
  | c :: rest => by
    rw [fullJsonB.fullJsonFields, fullJsonFields_map rest, List.map_cons]

theorem fullZipChildren_flatten : ∀ (rel : List Str) (cs : List (Str × BNode)),
    (cs.map (fun e => fullZipB (rel ++ [e.1]) e.2)).flatten =
      fullZipB.fullZipChildren rel cs
  | _, [] => by simp [fullZipB.fullZipChildren]
  | rel, c :: rest => by
    rw [List.map_cons, List.flatten_cons, fullZipChildren_flatten rel rest,
      fullZipB.fullZipChildren]

/-- With fuel above the subtree height, `_build_json_subtree` over the tree
backend returns the complete JSON dump of a clean subtree and propagates the
first exception of a dirty one. -/
theorem build_json_tree :
    ∀ (fuel : Nat) (root : BNode) (path : List Str) (n : BNode),
    resolveB root path = .ok n → wfB n = true → heightB n < fuel →
    _build_json_subtree (treeIface root) fuel path =
      match firstExcB n with
      | none => .ok (fullJsonB n)
      | some e => .error e.toPyErr := by
  intro fuel
  induction fuel with
  | zero =>
    intro root path n _ _ hh
    exact absurd hh (Nat.not_lt_zero _)
  | succ fuel ih =>
    intro root path n hres hwf hh
    cases n with
    | exc e =>
      have hti := treeInfo_at_exc root path e hres
      simp [_build_json_subtree, treeIface, hti, firstExcB, except_bind_err]
    | file data ct =>
      have hti := treeInfo_at_file root path data ct hres
      have hg := treeGet_at root path data ct hres
      cases hdec : utf8DecodeOpt data with
      | some s =>
        simp [_build_json_subtree, treeIface, hti, hg, hdec, firstExcB, fullJsonB,
          except_bind_ok]
      | none =>
        simp [_build_json_subtree, treeIface, hti, hg, hdec, firstExcB, fullJsonB,
          except_bind_ok]
    | dir children =>
      have hti := treeInfo_dir root path children hres
      have hl := treeList_at root path children hres
      obtain ⟨hnodup, hwfc⟩ := wfB_dir_parts hwf
      have hhch : heightB.childrenHeight children < fuel := by
        have h2 : heightB (.dir children) = 1 + heightB.childrenHeight children := by
          simp [heightB]
        omega
      simp only [_build_json_subtree, treeIface, hti, except_bind_ok, hl]
      rw [if_neg (by simp)]
      cases hexc : firstExcB.childrenExc children with
      | none =>
        refine bind_ok_of_mapM (fun name => ((bLookup children name).map
          (fun child => (name, fullJsonB child))).getD (name, JsonVal.null)) ?_ ?_
        · intro name hname
          obtain ⟨entry, hentry, rfl⟩ := List.mem_map.mp hname
          have hbl := bLookup_of_nodup children hnodup entry hentry
          have hresc := resolveB_child root path children entry.1 entry.2 hres hbl
          have hclean := childrenExc_none_mem hexc entry hentry
          have hwfe := wfChildren_mem hwfc hentry
          have hhe : heightB entry.2 < fuel :=
            lt_of_le_of_lt (heightB_child_le children entry hentry) hhch
          have hrec := ih root (path ++ [entry.1]) entry.2 hresc hwfe hhe
          rw [hclean] at hrec
          have hrec2 : _build_json_subtree
              { info := treeInfo root, list := treeList root, get := treeGet root }
              fuel (path ++ [entry.1]) = .ok (fullJsonB entry.2) := hrec
          simp [hrec2, hbl]
        · have hmap : (children.map Prod.fst).map (fun name => ((bLookup children name).map
              (fun child => (name, fullJsonB child))).getD (name, JsonVal.null)) =
              children.map (fun e => (e.1, fullJsonB e.2)) :=
            map_bLookup_entries (fun name child => (name, fullJsonB child))
              (fun name => (name, JsonVal.null)) children hnodup
          rw [hmap, ← fullJsonFields_map children]
          simp [firstExcB, hexc, fullJsonB]
      | some e =>
        obtain ⟨pre, name, child, post, hsplit, hpre, hchild⟩ := childrenExc_split hexc
        subst hsplit
        simp only [List.map_append, List.map_cons]
        refine bind_error_of_mapM (fun name' => ((bLookup (pre ++ (name, child) :: post) name').map
          (fun c => (name', fullJsonB c))).getD (name', JsonVal.null)) e.toPyErr
          (pre.map Prod.fst) name (post.map Prod.fst) ?_ ?_ ?_
        · intro y hy
          obtain ⟨entry, hentry, rfl⟩ := List.mem_map.mp hy
          have hentrym : entry ∈ pre ++ (name, child) :: post := List.mem_append_left _ hentry
          have hbl := bLookup_of_nodup _ hnodup entry hentrym
          have hresc := resolveB_child root path _ entry.1 entry.2 hres hbl
          have hwfe := wfChildren_mem hwfc hentrym
          have hhe : heightB entry.2 < fuel :=
            lt_of_le_of_lt (heightB_child_le _ entry hentrym) hhch
          have hrec := ih root (path ++ [entry.1]) entry.2 hresc hwfe hhe
          rw [hpre entry hentry] at hrec
          have hrec2 : _build_json_subtree
              { info := treeInfo root, list := treeList root, get := treeGet root }
              fuel (path ++ [entry.1]) = .ok (fullJsonB entry.2) := hrec
          simp [hrec2, hbl]
        · have hblx : bLookup (pre ++ (name, child) :: post) name = some child :=
            bLookup_of_nodup _ hnodup (name, child) (by simp)
          have hresc := resolveB_child root path _ name child hres hblx
          have hwfe := wfChildren_mem hwfc
            (show (name, child) ∈ pre ++ (name, child) :: post by simp)
          have hhe : heightB child < fuel :=
            lt_of_le_of_lt (heightB_child_le _ (name, child) (by simp)) hhch
          have hrec := ih root (path ++ [name]) child hresc hwfe hhe
          rw [hchild] at hrec
          have hrec2 : _build_json_subtree
              { info := treeInfo root, list := treeList root, get := treeGet root }
              fuel (path ++ [name]) = .error e.toPyErr := hrec
          simp [hrec2]
        · simp [firstExcB, hexc]

/-- With fuel at least the subtree height, `_zip_recurse` over the tree
backend returns the complete entry list of a clean directory and propagates
the first exception of a dirty one. -/
theorem zip_recurse_tree :
    ∀ (fuel : Nat) (root : BNode) (base rel : List Str) (children : List (Str × BNode)),
    resolveB root base = .ok (.dir children) → wfB (.dir children) = true →
    heightB (.dir children) ≤ fuel →
    _zip_recurse (treeIface root) fuel base rel =
      match firstExcB.childrenExc children with
      | none => .ok (fullZipB.fullZipChildren rel children)
      | some e => .error e.toPyErr := by
  intro fuel
  induction fuel with
  | zero =>
    intro root base rel children _ _ hh
    exfalso
    simp [heightB] at hh
  | succ fuel ih =>
    intro root base rel children hres hwf hh
    have hl := treeList_at root base children hres
    obtain ⟨hnodup, hwfc⟩ := wfB_dir_parts hwf
    have hhch : heightB.childrenHeight children ≤ fuel := by
      have h2 : heightB (.dir children) = 1 + heightB.childrenHeight children := by
        simp [heightB]
      omega
    simp only [_zip_recurse, treeIface, hl, except_bind_ok]
    cases hexc : firstExcB.childrenExc children with
    | none =>
      refine bind_ok_of_mapM (fun name => ((bLookup children name).map
        (fun child => fullZipB (rel ++ [name]) child)).getD []) ?_ ?_
      · intro name hname
        obtain ⟨entry, hentry, rfl⟩ := List.mem_map.mp hname
        obtain ⟨ename, echild⟩ := entry
        have hbl := bLookup_of_nodup children hnodup (ename, echild) hentry
        have hresc := resolveB_child root base children ename echild hres hbl
        have hclean := childrenExc_none_mem hexc (ename, echild) hentry
        cases echild with
        | exc e' => simp [firstExcB] at hclean
        | file data ct =>
          have hti := treeInfo_at_file root (base ++ [ename]) data ct hresc
          have hg := treeGet_at root (base ++ [ename]) data ct hresc
          simp [hti, hg, hbl, fullZipB, except_bind_ok]
        | dir cs =>
          have hti := treeInfo_dir root (base ++ [ename]) cs hresc
          have hwfe := wfChildren_mem hwfc hentry
          have hhe : heightB (.dir cs) ≤ fuel :=
            le_trans (heightB_child_le children (ename, .dir cs) hentry) hhch
          have hcs : firstExcB.childrenExc cs = none := by
            simpa [firstExcB] using hclean
          have hrec := ih root (base ++ [ename]) (rel ++ [ename]) cs hresc hwfe hhe
          rw [hcs] at hrec
          have hrec2 : _zip_recurse
              { info := treeInfo root, list := treeList root, get := treeGet root }
              fuel (base ++ [ename]) (rel ++ [ename]) =
              .ok (fullZipB.fullZipChildren (rel ++ [ename]) cs) := hrec
          simp [hti, hrec2, hbl, fullZipB, except_bind_ok]
      · have hmap : (children.map Prod.fst).map (fun name => ((bLookup children name).map
            (fun child => fullZipB (rel ++ [name]) child)).getD []) =
            children.map (fun e => fullZipB (rel ++ [e.1]) e.2) :=
          map_bLookup_entries (fun name child => fullZipB (rel ++ [name]) child)
            (fun _ => []) children hnodup
        rw [hmap]
        show Except.ok (children.map (fun e => fullZipB (rel ++ [e.1]) e.2)).flatten = _
        rw [fullZipChildren_flatten]
    | some e =>
      obtain ⟨pre, name, child, post, hsplit, hpre, hchild⟩ := childrenExc_split hexc
      subst hsplit
      simp only [List.map_append, List.map_cons]
      refine bind_error_of_mapM (fun name' => ((bLookup (pre ++ (name, child) :: post) name').map
        (fun c => fullZipB (rel ++ [name']) c)).getD []) e.toPyErr
        (pre.map Prod.fst) name (post.map Prod.fst) ?_ ?_ ?_
      · intro y hy
        obtain ⟨entry, hentry, rfl⟩ := List.mem_map.mp hy
        obtain ⟨ename, echild⟩ := entry
        have hentrym : (ename, echild) ∈ pre ++ (name, child) :: post :=
          List.mem_append_left _ hentry
        have hbl := bLookup_of_nodup _ hnodup (ename, echild) hentrym
        have hresc := resolveB_child root base _ ename echild hres hbl
        have hclean := hpre (ename, echild) hentry
        cases echild with
        | exc e' => simp [firstExcB] at hclean
        | file data ct =>
          have hti := treeInfo_at_file root (base ++ [ename]) data ct hresc
          have hg := treeGet_at root (base ++ [ename]) data ct hresc
          simp [hti, hg, hbl, fullZipB, except_bind_ok]
        | dir cs =>
          have hti := treeInfo_dir root (base ++ [ename]) cs hresc
          have hwfe := wfChildren_mem hwfc hentrym
          have hhe : heightB (.dir cs) ≤ fuel :=
            le_trans (heightB_child_le _ (ename, .dir cs) hentrym) hhch
          have hcs : firstExcB.childrenExc cs = none := by
            simpa [firstExcB] using hclean
          have hrec := ih root (base ++ [ename]) (rel ++ [ename]) cs hresc hwfe hhe
          rw [hcs] at hrec
          have hrec2 : _zip_recurse
              { info := treeInfo root, list := treeList root, get := treeGet root }
              fuel (base ++ [ename]) (rel ++ [ename]) =
              .ok (fullZipB.fullZipChildren (rel ++ [ename]) cs) := hrec
          simp [hti, hrec2, hbl, fullZipB, except_bind_ok]
      · have hblx : bLookup (pre ++ (name, child) :: post) name = some child :=
          bLookup_of_nodup _ hnodup (name, child) (by simp)
        have hresc := resolveB_child root base _ name child hres hblx
        cases child with
        | file data ct => simp [firstExcB] at hchild
        | exc e' =>
          have hti := treeInfo_at_exc root (base ++ [name]) e' hresc
          simp [hti, except_bind_err]
          have he2 : e' = e := by simpa [firstExcB] using hchild
          rw [he2]
        | dir cs =>
          have hti := treeInfo_dir root (base ++ [name]) cs hresc
          have hwfe := wfChildren_mem hwfc
            (show (name, BNode.dir cs) ∈ pre ++ (name, BNode.dir cs) :: post by simp)
          have hhe : heightB (.dir cs) ≤ fuel :=
            le_trans (heightB_child_le _ (name, .dir cs) (by simp)) hhch
          have hcs : firstExcB.childrenExc cs = some e := by
            simpa [firstExcB] using hchild
          have hrec := ih root (base ++ [name]) (rel ++ [name]) cs hresc hwfe hhe
          rw [hcs] at hrec
          have hrec2 : _zip_recurse
              { info := treeInfo root, list := treeList root, get := treeGet root }
              fuel (base ++ [name]) (rel ++ [name]) = .error e.toPyErr := hrec
          simp [hti, hrec2, except_bind_ok]
      · simp [hexc]

/-- Top-level ?zip dump over the tree backend: complete archive of a clean
node, first exception of a dirty one. -/
theorem build_zip_tree (fuel : Nat) (root : BNode) (path : List Str) (n : BNode)
    (hres : resolveB root path = .ok n) (hwfn : wfB n = true) (hh : heightB n ≤ fuel) :
    _build_zip_subtree (treeIface root) fuel path =
      match firstExcB n with
      | none => .ok (fullZipTopB path n)
      | some e => .error e.toPyErr := by
  cases n with
  | exc e =>
    have hti := treeInfo_at_exc root path e hres
    simp [_build_zip_subtree, treeIface, hti, firstExcB, except_bind_err]
  | file data ct =>
    have hti := treeInfo_at_file root path data ct hres
    have hg := treeGet_at root path data ct hres
    simp [_build_zip_subtree, treeIface, hti, hg, firstExcB, fullZipTopB, except_bind_ok]
  | dir children =>
    have hti := treeInfo_dir root path children hres
    have hz := zip_recurse_tree fuel root path [] children hres hwfn hh
    have hz2 : _zip_recurse
        { info := treeInfo root, list := treeList root, get := treeGet root }
        fuel path [] =
        match firstExcB.childrenExc children with
        | none => .ok (fullZipB.fullZipChildren [] children)
        | some e => .error e.toPyErr := hz
    simp only [_build_zip_subtree, treeIface, hti, except_bind_ok]
    rw [if_neg (by simp), hz2]
    cases hc : firstExcB.childrenExc children <;> simp [firstExcB, fullZipTopB, hc]

/-- C6.  On a dump request the first NotFound met during the traversal yields
a 404 response and the first BackendError a 500, with no partial dump body
either way; and a 200 response carrying JSON or ZIP bytes is produced only
when the whole subtree raised nothing, in which case the body serializes the
complete dump.  When the clean dump is the bare JSON null (the target is a
lone file whose bytes are not valid UTF-8) the handler's tree-is-None test
swallows it and no response at all is sent; every other clean dump is
answered 200 in full. -/
theorem c6_dump_error_propagation
    (root : BNode) (path : List Str) (n : BNode)
    (hres : resolveB root path = .ok n)
    (hwfn : wfB n = true) (hhn : heightB n < 1000)
    (urlJ urlZ : Str)
    (hju : _parse_request_path urlJ = (path, some DumpFormat.json))
    (hzu : _parse_request_path urlZ = (path, some DumpFormat.zip)) :
    (firstExcB n = none →
      (fullJsonB n = JsonVal.null → handleGetTree root urlJ = .ok none) ∧
      (fullJsonB n ≠ JsonVal.null → handleGetTree root urlJ = .ok (some
        { status := 200, content_type := "application/json; charset=utf-8".data,
          body := utf8Encode (jsonDumps (fullJsonB n)) })) ∧
      handleGetTree root urlZ = .ok (some
        { status := 200, content_type := "application/zip".data,
          body := zipSerialize (fullZipTopB path n) })) ∧
    (∀ m : Str, firstExcB n = some (.notFound m) →
      handleGetTree root urlJ = .ok (some
        { status := 404, content_type := "text/plain".data,
          body := utf8Encode "Not Found".data }) ∧
      handleGetTree root urlZ = .ok (some
        { status := 404, content_type := "text/plain".data,
          body := utf8Encode "Not Found".data })) ∧
    (∀ m : Str, firstExcB n = some (.backend m) →
      handleGetTree root urlJ = .ok (some
        { status := 500, content_type := "text/plain".data, body := utf8Encode m }) ∧
      handleGetTree root urlZ = .ok (some
        { status := 500, content_type := "text/plain".data, body := utf8Encode m })) ∧
    (∀ r : HttpResponse, handleGetTree root urlJ = .ok (some r) → r.status = 200 →
      firstExcB n = none ∧ r.body = utf8Encode (jsonDumps (fullJsonB n))) ∧
    (∀ r : HttpResponse, handleGetTree root urlZ = .ok (some r) → r.status = 200 →
      firstExcB n = none ∧ r.body = zipSerialize (fullZipTopB path n)) := by
  have hbj := build_json_tree 1000 root path n hres hwfn hhn
  have hbz := build_zip_tree 1000 root path n hres hwfn (le_of_lt hhn)
  have hJ : handleGetTree root urlJ =
      match firstExcB n with
      | none =>
        match fullJsonB n with
        | JsonVal.null => .ok none
        | t =>
          .ok (some
            { status := 200, content_type := "application/json; charset=utf-8".data,
              body := utf8Encode (jsonDumps t) })
      | some e =>
        .ok (some (match e with
          | .notFound _ =>
            { status := 404, content_type := "text/plain".data,
              body := utf8Encode "Not Found".data }
          | .backend m =>
            { status := 500, content_type := "text/plain".data,
              body := utf8Encode m })) := by
    unfold handleGetTree _handle_get
    rw [hju]
    cases hfe : firstExcB n with
    | none =>
      rw [hfe] at hbj
      cases hfj : fullJsonB n with
      | null => rw [hfj] at hbj; simp [hbj, _try, except_bind_ok]
      | strv s => rw [hfj] at hbj; simp [hbj, _try, except_bind_ok]
      | obj fields => rw [hfj] at hbj; simp [hbj, _try, except_bind_ok]
    | some e =>
      rw [hfe] at hbj
      cases e with
      | notFound m => simp [hbj, _try, except_bind_ok, BackendExc.toPyErr]
      | backend m => simp [hbj, _try, except_bind_ok, BackendExc.toPyErr]
  have hZ : handleGetTree root urlZ =
      match firstExcB n with
      | none =>
        .ok (some
          { status := 200, content_type := "application/zip".data,
            body := zipSerialize (fullZipTopB path n) })
      | some e =>
        .ok (some (match e with
          | .notFound _ =>
            { status := 404, content_type := "text/plain".data,
              body := utf8Encode "Not Found".data }
          | .backend m =>
            { status := 500, content_type := "text/plain".data,
              body := utf8Encode m })) := by
    unfold handleGetTree _handle_get
    rw [hzu]
    cases hfe : firstExcB n with
    | none =>
      rw [hfe] at hbz
      simp [hbz, _try, except_bind_ok]
    | some e =>
      rw [hfe] at hbz
      cases e with
      | notFound m => simp [hbz, _try, except_bind_ok, BackendExc.toPyErr]
      | backend m => simp [hbz, _try, except_bind_ok, BackendExc.toPyErr]
  refine ⟨?_, ?_, ?_, ?_, ?_⟩
  · intro hclean
    refine ⟨?_, ?_, ?_⟩
    · intro hnull
      rw [hJ, hclean, hnull]
    · intro hnull
      rw [hJ, hclean]
      cases hfj : fullJsonB n with
      | null => exact absurd hfj hnull
      | strv s => simp
      | obj fields => simp
    · rw [hZ, hclean]
  · intro m hm
    exact ⟨by rw [hJ, hm], by rw [hZ, hm]⟩
  · intro m hm
    exact ⟨by rw [hJ, hm], by rw [hZ, hm]⟩
  · intro r hr h200
    rw [hJ] at hr
    cases hfe : firstExcB n with
    | none =>
      rw [hfe] at hr
      refine ⟨rfl, ?_⟩
      cases hfj : fullJsonB n with
      | null => rw [hfj] at hr; simp at hr
      | strv s =>
        rw [hfj] at hr
        simp at hr
        rw [← hr]
      | obj fields =>
        rw [hfj] at hr
        simp at hr
        rw [← hr]
    | some e =>
      rw [hfe] at hr
      cases e with
      | notFound m =>
        simp at hr
        rw [← hr] at h200
        have hstat : (404 : Nat) = 200 := h200
        exact absurd hstat (by decide)
      | backend m =>
        simp at hr
        rw [← hr] at h200
        have hstat : (500 : Nat) = 200 := h200
        exact absurd hstat (by decide)
  · intro r hr h200
    rw [hZ] at hr
    cases hfe : firstExcB n with
    | none =>
      rw [hfe] at hr
      simp at hr
      exact ⟨rfl, by rw [← hr]⟩
    | some e =>
      rw [hfe] at hr
      cases e with
      | notFound m =>
        simp at hr
        rw [← hr] at h200
        have hstat : (404 : Nat) = 200 := h200
        exact absurd hstat (by decide)
      | backend m =>
        simp at hr
        rw [← hr] at h200
        have hstat : (500 : Nat) = 200 := h200
        exact absurd hstat (by decide)

/-- C6 witness: the clean tree fixture dumps completely with 200 in both
formats, a lone file of non-UTF-8 bytes makes the ?json handler return with
no response at all, the fixture with a NotFound child answers ?json with
404, and the fixture with a BackendError child answers ?zip with 500
carrying the error text. -/
theorem c6_witness :
    handleGetTree treeSample "/?json".data = .ok (some
      { status := 200, content_type := "application/json; charset=utf-8".data,
        body := utf8Encode (jsonDumps (fullJsonB (.dir
          [("hello.txt".data, .file (utf8Encode "Hello, world!".data) "text/plain".data),
           ("docs".data, .dir [("guide.txt".data,
             .file (utf8Encode "A guide".data) "text/plain".data)])]))) }) ∧
    handleGetTree treeSample "/?zip".data = .ok (some
      { status := 200, content_type := "application/zip".data,
        body := zipSerialize (fullZipTopB [] (.dir
          [("hello.txt".data, .file (utf8Encode "Hello, world!".data) "text/plain".data),
           ("docs".data, .dir [("guide.txt".data,
             .file (utf8Encode "A guide".data) "text/plain".data)])])) }) ∧
    handleGetTree (BNode.file [255] "application/octet-stream".data) "/?json".data =
      .ok none ∧
    handleGetTree treeBadNF "/?json".data = .ok (some
      { status := 404, content_type := "text/plain".data,
        body := utf8Encode "Not Found".data }) ∧
    handleGetTree treeBadBE "/?zip".data = .ok (some
      { status := 500, content_type := "text/plain".data,
        body := utf8Encode "disk exploded".data }) := by
  have h1 := c6_dump_error_propagation treeSample []
    (.dir [("hello.txt".data, .file (utf8Encode "Hello, world!".data) "text/plain".data),
           ("docs".data, .dir [("guide.txt".data,
             .file (utf8Encode "A guide".data) "text/plain".data)])])
    rfl (by decide) (by decide) "/?json".data "/?zip".data (by decide) (by decide)
  have h4 := c6_dump_error_propagation
    (BNode.file [255] "application/octet-stream".data) []
    (BNode.file [255] "application/octet-stream".data)
    rfl (by decide) (by decide) "/?json".data "/?zip".data (by decide) (by decide)
  have h2 := c6_dump_error_propagation treeBadNF []
    (.dir [("a.txt".data, .file [65] "text/plain".data),
           ("bad".data, .exc (.notFound "gone".data))])
    rfl (by decide) (by decide) "/?json".data "/?zip".data (by decide) (by decide)
  have h3 := c6_dump_error_propagation treeBadBE []
    (.dir [("a.txt".data, .file [65] "text/plain".data),
           ("boom".data, .exc (.backend "disk exploded".data))])
    rfl (by decide) (by decide) "/?json".data "/?zip".data (by decide) (by decide)
  refine ⟨(h1.1 (by decide)).2.1 (by simp [fullJsonB]), (h1.1 (by decide)).2.2,
    (h4.1 (by decide)).1 rfl,
    (h2.2.1 "gone".data (by decide)).1,
    (h3.2.2.1 "disk exploded".data (by decide)).2⟩
